import Mathlib

/-!
# Camera session manager of script.js

A shallow embedding of the stateful parts of `src/script.js`: the device
enumerator, the capture session (stream acquisition, torch, zoom), the pose
readout, the QR scan tick and the recording toggle.

Conventions of the embedding.

* The script keeps its state in closure variables and in DOM properties; both
  become fields of one record, `State`, and every function of the script
  becomes a function from `State` to `State` (with a completion value where the
  script function returns one or may throw).
* Whatever the browser decides (the device listing, whether a stream is
  granted, whether a constraint is accepted, what the decoder sees) is an
  explicit argument of the embedded function.
* Media streams and recorders are objects with identity; they live in two
  heaps indexed by allocation order (`streams`, `recorders`).
* A JavaScript number is a rational, the value of the double; `none` stands
  for a value whose numeric reading is NaN (`undefined` or NaN itself). Sums
  and products are rounded to the nearest double, ties to even (`toDouble`).
* Strings are sequences of code points; the regular expressions of the script
  match ASCII words only, so a match exists in the code points exactly when
  one exists in the UTF-16 code units.
* A thrown exception or a rejected promise is `Except.error` with the message.
-/

namespace QRCode

/-! ## JavaScript numbers -/

/-- A JavaScript number, or `none` for `undefined` / NaN. -/
abbrev JSNum := Option ℚ

/-- Truthiness of a number: `undefined`, NaN and zero are falsy. -/
def truthy : JSNum → Bool
  | some q => decide (q ≠ 0)
  | none => false

/-- The expression `a || b` on numbers. -/
def orElse (a b : JSNum) : JSNum :=
  if truthy a then a else b

/-- The integer nearest to `q`, the even one of the two when `q` lies half way
between them. -/
def roundHalfEven (q : ℚ) : ℤ :=
  if q - ⌊q⌋ < 1 / 2 then ⌊q⌋
  else if 1 / 2 < q - ⌊q⌋ then ⌊q⌋ + 1
  else if ⌊q⌋ % 2 = 0 then ⌊q⌋ else ⌊q⌋ + 1

/-- The exponent of the spacing of the doubles around `q`: 52 below the
exponent of `q`, which is not taken below -1022 (the subnormal range). -/
def ulpExp (q : ℚ) : ℤ :=
  max (Int.log 2 |q|) (-1022) - 52

/-- The double nearest to the exact value `q`, ties to even (IEEE 754 binary64,
the rounding of every JavaScript operator). The exponent is not bounded above:
where JavaScript yields an infinity this yields a value beyond every double,
which compares with every double as the infinity does. -/
def toDouble (q : ℚ) : ℚ :=
  roundHalfEven (q / 2 ^ ulpExp q) * 2 ^ ulpExp q

/-- The sum `a + b`, rounded; NaN when an operand is. -/
def jsAdd : JSNum → JSNum → JSNum
  | some x, some y => some (toDouble (x + y))
  | _, _ => none

/-- The product `a * b`, rounded; NaN when an operand is. -/
def jsMul : JSNum → JSNum → JSNum
  | some x, some y => some (toDouble (x * y))
  | _, _ => none

/-- The call `Math.min(a, b)`; NaN when an argument is. -/
def mathMin : JSNum → JSNum → JSNum
  | some x, some y => some (min x y)
  | _, _ => none

/-- The call `Math.max(a, b)`; NaN when an argument is. -/
def mathMax : JSNum → JSNum → JSNum
  | some x, some y => some (max x y)
  | _, _ => none

/-- The comparison `a > b`; false when an operand is NaN. -/
def jsGt : JSNum → JSNum → Bool
  | some x, some y => decide (y < x)
  | _, _ => false

/-! ## Regular expressions

The two regular expression literals of the script, `/back|rear|environment/i`
and `/^https?:\/\//i`, are run by a small backtracking matcher over the
constructs they use. -/

/-- Abstract syntax of the regular expressions that occur in the script. -/
inductive Rx where
  | eps : Rx
  | chr : Char → Rx
  | bos : Rx
  | seq : Rx → Rx → Rx
  | alt : Rx → Rx → Rx
  | opt : Rx → Rx

/-- Canonical form of a character under the `i` flag. The patterns of the
script consist of ASCII characters only, and a character outside ASCII never
canonicalises to an ASCII one, so ASCII upper-casing decides every comparison
against a pattern character. -/
def canonicalize (c : Char) : Char := c.toUpper

/-- All positions at which a match of `r` that starts at `pos` can end, in
the order in which a backtracking matcher tries them. -/
def Rx.ends : Rx → List Char → Nat → List Nat
  | .eps, _, pos => [pos]
  | .chr c, inp, pos =>
    match inp[pos]? with
    | some ch => if canonicalize ch = canonicalize c then [pos + 1] else []
    | none => []
  | .bos, _, pos => if pos = 0 then [pos] else []
  | .seq a b, inp, pos => (a.ends inp pos).flatMap (fun p => b.ends inp p)
  | .alt a b, inp, pos => a.ends inp pos ++ b.ends inp pos
  | .opt a, inp, pos => a.ends inp pos ++ [pos]

/-- The method `RegExp.prototype.test` without the `g` / `y` flags: try every
start position from 0 to the length of the input. -/
def Rx.test (r : Rx) (s : String) : Bool :=
  (List.range (s.toList.length + 1)).any (fun i => !(r.ends s.toList i).isEmpty)

/-- A run of literal pattern characters. -/
def Rx.lit (w : String) : Rx :=
  w.toList.foldr (fun c r => Rx.seq (Rx.chr c) r) Rx.eps

/-- The literal `/back|rear|environment/i` of enumerateDevices. -/
def rearRx : Rx :=
  Rx.alt (Rx.lit "back") (Rx.alt (Rx.lit "rear") (Rx.lit "environment"))

/-- The literal `/^https?:\/\//i` of the scan tick. -/
def urlRx : Rx :=
  Rx.seq Rx.bos (Rx.seq (Rx.lit "http") (Rx.seq (Rx.opt (Rx.chr 's')) (Rx.lit "://")))

/-- The method `Array.prototype.findIndex`, scanning from index `k`. -/
def findIndexFrom {α : Type} (p : α → Bool) : List α → Nat → Int
  | [], _ => -1
  | x :: xs, k => if p x then (k : Int) else findIndexFrom p xs (k + 1)

/-- The method `Array.prototype.findIndex`: the first index whose element
satisfies `p`, or -1. -/
def findIndex {α : Type} (p : α → Bool) (l : List α) : Int :=
  findIndexFrom p l 0

/-- Array indexing `l[i]` with a JavaScript number: `undefined` outside the
array. -/
def index {α : Type} (l : List α) (i : Int) : Option α :=
  if 0 ≤ i then l[i.toNat]? else none

/-! ## Platform objects -/

/-- An entry of `navigator.mediaDevices.enumerateDevices()`. -/
structure MediaDeviceInfo where
  kind : String
  label : String
  deviceId : String
deriving DecidableEq, Repr

/-- A `MediaSettingsRange`, as found under `caps.zoom`. -/
structure ZoomRange where
  min : JSNum
  max : JSNum
  step : JSNum
deriving DecidableEq, Repr

/-- What `getCapabilities()` returns, as far as the script reads it. -/
structure Capabilities where
  zoom : Option ZoomRange
  torch : Bool
deriving DecidableEq, Repr

/-- One entry of the `advanced` list given to `applyConstraints`. -/
inductive Constraint where
  | torch : Bool → Constraint
  | zoom : JSNum → Constraint
deriving DecidableEq, Repr

/-- A `MediaStreamTrack`. `getCapabilities` is `none` on a platform that does
not implement the method; `zoomSetting` is `getSettings().zoom`; `applied`
lists the constraints the track accepted, oldest first. -/
structure Track where
  live : Bool
  getCapabilities : Option Capabilities
  zoomSetting : JSNum
  applied : List Constraint
deriving DecidableEq, Repr

/-- The method `stop()` of a track. -/
def Track.stop (t : Track) : Track :=
  { t with live := false }

/-- A `MediaStream` obtained for a video-only request: its first video track,
any further tracks, and the frame size the video element reports for it. -/
structure MediaStream where
  video : Track
  others : List Track
  videoWidth : Nat
  videoHeight : Nat
deriving DecidableEq, Repr

/-- The result of `getTracks()`. -/
def MediaStream.getTracks (m : MediaStream) : List Track :=
  m.video :: m.others

/-- The statement `stream.getTracks().forEach(t => t.stop())`. -/
def MediaStream.stopAll (m : MediaStream) : MediaStream :=
  { m with video := m.video.stop, others := m.others.map Track.stop }

/-- A stream is open when each of its tracks is live. -/
def MediaStream.isOpen (m : MediaStream) : Bool :=
  m.getTracks.all (fun t => t.live)

/-- A stream is fully stopped when none of its tracks is live. -/
def MediaStream.isStopped (m : MediaStream) : Bool :=
  m.getTracks.all (fun t => !t.live)

/-- What the platform hands out when it grants a stream: the capabilities and
zoom setting of the video track, the number of further tracks, and the frame
size. -/
structure StreamOffer where
  getCapabilities : Option Capabilities
  zoomSetting : JSNum
  extraTracks : Nat
  videoWidth : Nat
  videoHeight : Nat
deriving DecidableEq, Repr

/-- The stream object the platform creates for an offer: all tracks live, no
constraint applied yet. -/
def StreamOffer.create (o : StreamOffer) : MediaStream :=
  { video := { live := true, getCapabilities := o.getCapabilities,
               zoomSetting := o.zoomSetting, applied := [] }
    others := List.replicate o.extraTracks
      { live := true, getCapabilities := none, zoomSetting := none, applied := [] }
    videoWidth := o.videoWidth
    videoHeight := o.videoHeight }

/-- How `getUserMedia` settles: a granted stream, or a rejection with the
message of the error. -/
inductive Acquisition where
  | granted : StreamOffer → Acquisition
  | denied : String → Acquisition
deriving DecidableEq, Repr

/-- The `video` member of the constraints passed to `getUserMedia`. -/
inductive VideoRequest where
  | exactDevice : String → VideoRequest
  | facingEnvironment : VideoRequest
deriving DecidableEq, Repr

/-- What the script asks of the camera platform, in the order it asks. -/
inductive Event where
  | stopped : Nat → Event
  | requested : VideoRequest → Event
  | granted : Nat → Event
  | denied : String → Event
deriving DecidableEq, Repr

/-- The `state` attribute of a `MediaRecorder`. -/
inductive RecorderState where
  | inactive : RecorderState
  | recording : RecorderState
  | paused : RecorderState
deriving DecidableEq, Repr

/-- A landmark of the pose estimator. -/
structure Landmark where
  x : ℚ
  y : ℚ
  visibility : JSNum
deriving DecidableEq, Repr

/-- The argument of the `onResults` callback. -/
structure PoseResults where
  poseLandmarks : Option (List Landmark)
deriving DecidableEq, Repr

/-! ## State of the page -/

/-- The closure variables of the script, the DOM properties it reads and
writes, and the platform objects it has created. -/
structure State where
  /-- Script variable `devices`. -/
  devices : List MediaDeviceInfo
  /-- Script variable `currentDeviceIndex`. -/
  currentDeviceIndex : Int
  /-- Script variable `currentStream`: the identity of a stream, or null. -/
  currentStream : Option Nat
  /-- Script variable `videoTrack`: the first video track of the stream with
  this identity, or null. -/
  videoTrack : Option Nat
  /-- Script variable `torchSupported`. -/
  torchSupported : Bool
  /-- Script variable `zoomCap`. -/
  zoomCap : Option ZoomRange
  /-- Script variable `currentZoom`. -/
  currentZoom : JSNum
  /-- Script variable `mediaRecorder`: the identity of a recorder, or null. -/
  mediaRecorder : Option Nat
  /-- Script variable `chunks`, as the sizes of the recorded blobs. -/
  chunks : List Nat
  /-- Property `errorMsg.textContent`. -/
  errorMsg : String
  /-- Messages passed to `console.warn`, oldest first. -/
  console : List String
  /-- Property `switchBtn.disabled`. -/
  switchBtnDisabled : Bool
  /-- Property `flashBtn.disabled`. -/
  flashBtnDisabled : Bool
  /-- Property `zoomInBtn.disabled`. -/
  zoomInBtnDisabled : Bool
  /-- Property `zoomOutBtn.disabled`. -/
  zoomOutBtnDisabled : Bool
  /-- Property `flashBtn.dataset.on`; `none` when the attribute is absent. -/
  flashBtnOn : Option String
  /-- Property `flashBtn.textContent`. -/
  flashBtnText : String
  /-- Property `recordBtn.textContent`. -/
  recordBtnText : String
  /-- Property `detectedNameEl.textContent`. -/
  detectedName : String
  /-- Property `qrResultEl.textContent`. -/
  qrResult : String
  /-- Property `video.srcObject`. -/
  videoSrcObject : Option Nat
  /-- Property `overlay.width`. -/
  overlayWidth : Nat
  /-- Property `overlay.height`. -/
  overlayHeight : Nat
  /-- Property `scanCanvas.width`. -/
  scanWidth : Nat
  /-- Property `scanCanvas.height`. -/
  scanHeight : Nat
  /-- Centres of the ring markers on the overlay since it was last cleared. -/
  rings : List (ℚ × ℚ)
  /-- Values assigned to `window.location.href`, oldest first. -/
  navigations : List String
  /-- Every stream the platform has handed out, by identity. -/
  streams : Nat → MediaStream
  /-- Number of streams handed out so far; identities are 0 .. streamCount-1. -/
  streamCount : Nat
  /-- Every recorder constructed so far, by identity. -/
  recorders : Nat → RecorderState
  /-- Number of recorders constructed so far. -/
  recorderCount : Nat
  /-- Requests made to the camera platform, oldest first. -/
  log : List Event

/-- Number of streams handed out so far that are open. -/
def openStreams (s : State) : Nat :=
  (List.range s.streamCount).countP (fun i => (s.streams i).isOpen)

/-- Number of streams handed out so far that are fully stopped. -/
def stoppedStreams (s : State) : Nat :=
  (List.range s.streamCount).countP (fun i => (s.streams i).isStopped)

/-- Number of recorders constructed so far that are in the state "recording". -/
def activeRecordings (s : State) : Nat :=
  (List.range s.recorderCount).countP (fun i => decide (s.recorders i = .recording))

/-! ## Functions of the script -/

/-- Index of the left eye among the pose landmarks. -/
def LEFT_EYE : Nat := 2

/-- Index of the right eye among the pose landmarks. -/
def RIGHT_EYE : Nat := 5

/-- The lookup `EYE_NAMES[i]`; an index without an entry reads `undefined`,
which `join` renders as the empty string. -/
def EYE_NAMES (i : Nat) : String :=
  if i = LEFT_EYE then "Left Eye" else if i = RIGHT_EYE then "Right Eye" else ""

/-- Script function `showError`. -/
def showError (s : State) (msg : String) : State :=
  { s with errorMsg := msg, console := s.console ++ [msg] }

/-- Script function `clearError`. -/
def clearError (s : State) : State :=
  { s with errorMsg := "" }

/-- Script function `enumerateDevices`. `listing` is how the promise of
`navigator.mediaDevices.enumerateDevices()` settles; the function has no
handler for a rejection, so the rejection is its own completion. -/
def enumerateDevices (s : State) (listing : Except String (List MediaDeviceInfo)) :
    State × Except String Unit :=
  match listing with
  | .error e => (s, .error e)
  | .ok all =>
    let devices := all.filter (fun d => d.kind == "videoinput")
    let rear := findIndex (fun d => rearRx.test d.label) devices
    let s1 := { s with devices := devices }
    let s2 := if rear ≥ 0 then { s1 with currentDeviceIndex := rear } else s1
    ({ s2 with switchBtnDisabled := decide (devices.length ≤ 1) }, .ok ())

/-- The constraints `startCamera` passes to `getUserMedia`: an exact device
when `deviceId` is truthy (a non-empty string), else the rear-facing hint. -/
def videoRequest (deviceId : Option String) : VideoRequest :=
  match deviceId with
  | some d => if d ≠ "" then .exactDevice d else .facingEnvironment
  | none => .facingEnvironment

/-- Script function `startCamera`. `acq` is how the promise of `getUserMedia`
settles. The wait for the metadata of the video element is taken to end; the
frame size then read from the video element is that of the new stream. -/
def startCamera (s : State) (deviceId : Option String) (acq : Acquisition) :
    State × Except String Bool :=
  let s1 :=
    match s.currentStream with
    | some id =>
      { s with streams := Function.update s.streams id (s.streams id).stopAll
               log := s.log ++ [Event.stopped id] }
    | none => s
  let s2 := { s1 with log := s1.log ++ [Event.requested (videoRequest deviceId)] }
  match acq with
  | .denied msg =>
    (showError { s2 with log := s2.log ++ [Event.denied msg] } ("Camera error: " ++ msg), .ok false)
  | .granted offer =>
    let id := s2.streamCount
    let m := offer.create
    let caps : Capabilities :=
      match m.video.getCapabilities with
      | some c => c
      | none => { zoom := none, torch := false }
    ({ s2 with
        streams := Function.update s2.streams id m
        streamCount := id + 1
        log := s2.log ++ [Event.granted id]
        currentStream := some id
        videoSrcObject := some id
        overlayWidth := m.videoWidth
        overlayHeight := m.videoHeight
        scanWidth := m.videoWidth
        scanHeight := m.videoHeight
        videoTrack := some id
        zoomCap := caps.zoom
        zoomInBtnDisabled := caps.zoom.isNone
        zoomOutBtnDisabled := caps.zoom.isNone
        torchSupported := caps.torch
        flashBtnDisabled := !caps.torch }, .ok true)

/-- The track behind the script variable `videoTrack`. -/
def State.track (s : State) (id : Nat) : Track :=
  (s.streams id).video

/-- Record on the video track of stream `id` that it accepted constraint `c`. -/
def State.accept (s : State) (id : Nat) (c : Constraint) : State :=
  let m := s.streams id
  let t : Track := { m.video with applied := m.video.applied ++ [c] }
  { s with streams := Function.update s.streams id { m with video := t } }

/-- The torch flag the script reads: `flashBtn.dataset.on === "true"`. -/
def State.torchOn (s : State) : Bool :=
  s.flashBtnOn == some "true"

/-- Script function `toggleTorch`. `outcome` is how the promise of
`applyConstraints` settles. On a track without the `getCapabilities` method
the call of that method throws a TypeError. -/
def toggleTorch (s : State) (outcome : Except String Unit) : State × Except String Unit :=
  match s.videoTrack with
  | none => (s, .ok ())
  | some id =>
    match (s.track id).getCapabilities with
    | none => (s, .error "videoTrack.getCapabilities is not a function")
    | some caps =>
      if !caps.torch then (showError s "Torch not supported", .ok ())
      else
        let isOn := s.torchOn
        match outcome with
        | .error e => (s, .error e)
        | .ok _ =>
          ({ s.accept id (.torch (!isOn)) with
              flashBtnOn := some (if !isOn then "true" else "false")
              flashBtnText :=
                if !isOn then "ðŸ”¦ Flash On"
                else "ðŸ”¦ Flash Off" }, .ok ())

/-- The zoom level `applyZoom` computes from the live setting `live`, the
capability `zc` and the direction `d`. -/
def nextZoom (live : JSNum) (zc : ZoomRange) (d : ℚ) : JSNum :=
  let cur := orElse (orElse live zc.min) (some 1)
  let step := orElse zc.step (some (toDouble (1 / 5)))
  mathMax zc.min (mathMin zc.max (jsAdd cur (jsMul (some d) step)))

/-- Script function `applyZoom`. `outcome` is how the promise of
`applyConstraints` settles. The script calls it with the directions 1 and -1. -/
def applyZoom (s : State) (d : ℚ) (outcome : Except String Unit) : State × Except String Unit :=
  match s.videoTrack, s.zoomCap with
  | some id, some zc =>
    let nz := nextZoom (s.track id).zoomSetting zc d
    match outcome with
    | .error e => (s, .error e)
    | .ok _ => ({ s.accept id (.zoom nz) with currentZoom := nz }, .ok ())
  | _, _ => (s, .ok ())

/-- Whether `mediaRecorder && mediaRecorder.state === "recording"` holds. -/
def State.isRecording (s : State) : Bool :=
  match s.mediaRecorder with
  | some id => decide (s.recorders id = .recording)
  | none => false

/-- Script function `startRecording`: a new recorder is constructed on the
stream of a fresh compositing canvas and started. The drawing done by `loop`
touches that canvas only. -/
def startRecording (s : State) : State :=
  let id := s.recorderCount
  { s with
      recorders := Function.update s.recorders id RecorderState.recording
      recorderCount := id + 1
      mediaRecorder := some id
      chunks := []
      recordBtnText := "â¹ï¸ Stop" }

/-- Script function `stopRecording`. -/
def stopRecording (s : State) : State :=
  let s1 :=
    match s.mediaRecorder with
    | some id =>
      if s.recorders id = RecorderState.recording then
        { s with recorders := Function.update s.recorders id RecorderState.inactive }
      else s
    | none => s
  { s1 with recordBtnText := "âºï¸ Record" }

/-- The handler `recordBtn.onclick`. -/
def recordBtn_onclick (s : State) : State :=
  if s.isRecording then stopRecording s else startRecording s

/-- One round of the `forEach` of `onPose` for landmark index `i`: the ring
markers and the names collected so far, extended when the landmark is present
with visibility above 0.5. -/
def eyeStep (s : State) (lm : List Landmark) (acc : List (ℚ × ℚ) × List String) (i : Nat) :
    List (ℚ × ℚ) × List String :=
  match lm[i]? with
  | some p =>
    if jsGt p.visibility (some (1 / 2)) then
      (acc.1 ++ [(toDouble (p.x * s.overlayWidth), toDouble (p.y * s.overlayHeight))],
        acc.2 ++ [EYE_NAMES i])
    else acc
  | none => acc

/-- Script function `onPose`. -/
def onPose (s : State) (r : PoseResults) : State :=
  let lm := r.poseLandmarks.getD []
  let res := [LEFT_EYE, RIGHT_EYE].foldl (eyeStep s lm) ([], [])
  { s with
      rings := res.1
      detectedName := if res.2.length ≠ 0 then ", ".intercalate res.2 else "None" }

/-- The timer callback installed by `startQR`. `videoWidth` is
`video.videoWidth` at the tick and `decoded` is the payload `jsQR` finds in
the sampled frame, if any. -/
def startQR_tick (s : State) (videoWidth : Nat) (decoded : Option String) : State :=
  if videoWidth = 0 then s
  else
    match decoded with
    | none => s
    | some data =>
      let s1 := { s with qrResult := data }
      if urlRx.test data then { s1 with navigations := s1.navigations ++ [data] } else s1

/-- A run of `startCamera` calls, each granted by the platform. -/
def startCameras (s : State) : List (Option String × StreamOffer) → State
  | [] => s
  | c :: cs => startCameras (startCamera s c.1 (.granted c.2)).1 cs

/-- The requests a run of granted `startCamera` calls makes of the platform,
when the stream current at its start is `prev` and the next fresh identity is
`next`: every call first stops the stream current before it, then asks for and
receives the next one. -/
def sessionLog : Option Nat → Nat → List (Option String) → List Event
  | _, _, [] => []
  | prev, next, d :: ds =>
    (match prev with
      | some i => [Event.stopped i]
      | none => []) ++
    [Event.requested (videoRequest d), Event.granted next] ++
    sessionLog (some next) (next + 1) ds

/-- A page before any camera or recorder was used, with the initial values of
the script variables. The DOM properties, which the HTML page sets, are empty
texts, enabled buttons and canvases of size zero. -/
def freshPage : State :=
  { devices := [], currentDeviceIndex := 0, currentStream := none, videoTrack := none
    torchSupported := false, zoomCap := none, currentZoom := some 1
    mediaRecorder := none, chunks := [], errorMsg := "", console := []
    switchBtnDisabled := false, flashBtnDisabled := false
    zoomInBtnDisabled := false, zoomOutBtnDisabled := false
    flashBtnOn := none, flashBtnText := "", recordBtnText := ""
    detectedName := "", qrResult := "", videoSrcObject := none
    overlayWidth := 0, overlayHeight := 0, scanWidth := 0, scanHeight := 0
    rings := [], navigations := []
    streams := fun _ =>
      { video := { live := false, getCapabilities := none, zoomSetting := none, applied := [] }
        others := [], videoWidth := 0, videoHeight := 0 }
    streamCount := 0
    recorders := fun _ => .inactive
    recorderCount := 0
    log := [] }

/-- The initialisation at the end of the script: the devices are listed, the
camera is opened on `devices[currentDeviceIndex]?.deviceId`, then the pose and
scan loops are started (the loops keep no state of their own here). A
rejection of an awaited call ends the initialisation. -/
def pageInit (s : State) (listing : Except String (List MediaDeviceInfo)) (acq : Acquisition) :
    State × Except String Unit :=
  match enumerateDevices s listing with
  | (s1, .error e) => (s1, .error e)
  | (s1, .ok _) =>
    let deviceId := (index s1.devices s1.currentDeviceIndex).map (fun d => d.deviceId)
    match startCamera s1 deviceId acq with
    | (s2, .error e) => (s2, .error e)
    | (s2, .ok _) => (s2, .ok ())

/-! ## Vocabulary of the specification -/

/-- The text `s` contains the word `w` when letter case is ignored. -/
def containsIgnoringCase (w s : String) : Prop :=
  w.toList.map Char.toLower <:+: s.toList.map Char.toLower

/-- The text `s` begins with the word `w` when letter case is ignored. -/
def beginsIgnoringCase (w s : String) : Prop :=
  w.toList.map Char.toLower <+: s.toList.map Char.toLower

/-- The word `w` stands in `inp` at position `pos` when letter case is
ignored. -/
def matchAt (w inp : List Char) (pos : Nat) : Prop :=
  w.map Char.toLower <+: (inp.drop pos).map Char.toLower

instance (w inp : List Char) (pos : Nat) : Decidable (matchAt w inp pos) :=
  inferInstanceAs (Decidable (_ <+: _))

instance (w s : String) : Decidable (containsIgnoringCase w s) :=
  inferInstanceAs (Decidable (_ <:+: _))

instance (w s : String) : Decidable (beginsIgnoringCase w s) :=
  inferInstanceAs (Decidable (_ <+: _))

/-- A device is rear-labelled when its label contains "back", "rear" or
"environment", ignoring case. -/
def rearLabelled (d : MediaDeviceInfo) : Prop :=
  containsIgnoringCase "back" d.label ∨ containsIgnoringCase "rear" d.label ∨
    containsIgnoringCase "environment" d.label

instance (d : MediaDeviceInfo) : Decidable (rearLabelled d) :=
  inferInstanceAs (Decidable (_ ∨ _ ∨ _))

/-- A payload is an HTTP(S) URL when it begins with "http://" or "https://",
ignoring case. -/
def httpUrl (s : String) : Prop :=
  beginsIgnoringCase "http://" s ∨ beginsIgnoringCase "https://" s

instance (s : String) : Decidable (httpUrl s) :=
  inferInstanceAs (Decidable (_ ∨ _))

/-- The value `x` clamped to the interval from `lo` to `hi`. -/
def clamp (x lo hi : ℚ) : ℚ :=
  if x < lo then lo else if hi < x then hi else x

/-- The step of a zoom adjustment: the step of the capability, or the default
0.2 when the capability gives no step or gives it as 0. -/
def effectiveStep : JSNum → ℚ
  | some step => if step = 0 then toDouble (1 / 5) else step
  | none => toDouble (1 / 5)

/-- A keypoint qualifies when the landmark with its index is present with a
visibility strictly above 0.5. -/
def qualifies (r : PoseResults) (i : Nat) : Bool :=
  match r.poseLandmarks with
  | some lm =>
    match lm[i]? with
    | some p =>
      match p.visibility with
      | some v => decide (1 / 2 < v)
      | none => false
    | none => false
  | none => false

/-- The names of the qualifying keypoints, left eye first. -/
def qualifyingNames (r : PoseResults) : List String :=
  (if qualifies r 2 then ["Left Eye"] else []) ++ (if qualifies r 5 then ["Right Eye"] else [])

/-- The readout the specification asks for: the qualifying names joined by a
comma and a blank, or "None" when there is none. -/
def readout (r : PoseResults) : String :=
  if qualifyingNames r = [] then "None" else ", ".intercalate (qualifyingNames r)

/-- Every stream handed out so far, other than the current one, is fully stopped. -/
def Released (s : State) : Prop :=
  ∀ i, i < s.streamCount → s.currentStream ≠ some i → (s.streams i).isStopped = true

/-! ## Sample pages -/

/-- An offer for a single-track 640x480 stream with zoom capability `zc`, live
zoom `live` and the given torch capability. -/
def sampleOffer (zc : Option ZoomRange) (live : JSNum) (torch : Bool) : StreamOffer :=
  { getCapabilities := some { zoom := zc, torch := torch }
    zoomSetting := live, extraTracks := 0, videoWidth := 640, videoHeight := 480 }

/-- An offer for a single-track 640x480 stream whose video track does not
implement `getCapabilities`. -/
def bareOffer : StreamOffer :=
  { getCapabilities := none, zoomSetting := none, extraTracks := 0
    videoWidth := 640, videoHeight := 480 }

/-- The page after its first, granted `startCamera` call. -/
def cameraPage (o : StreamOffer) : State :=
  (startCamera freshPage none (.granted o)).1

/-! ## Case folding and the two regular expressions -/

theorem char_eq_of_toNat_eq {a b : Char} (h : a.toNat = b.toNat) : a = b := by
  rw [← Char.ofNat_toNat a, ← Char.ofNat_toNat b, h]

theorem toNat_ofNat_small (n : Nat) (h : n ≤ 127) : (Char.ofNat n).toNat = n := by
  interval_cases n <;> rfl

theorem toNat_toUpper (c : Char) :
    c.toUpper.toNat = if 97 ≤ c.toNat ∧ c.toNat ≤ 122 then c.toNat - 32 else c.toNat := by
  unfold Char.toUpper
  simp only [ge_iff_le]
  split_ifs with h
  · exact toNat_ofNat_small _ (by omega)
  · rfl

theorem toNat_toLower (c : Char) :
    c.toLower.toNat = if 65 ≤ c.toNat ∧ c.toNat ≤ 90 then c.toNat + 32 else c.toNat := by
  unfold Char.toLower
  simp only [ge_iff_le]
  split_ifs with h
  · exact toNat_ofNat_small _ (by omega)
  · rfl

/-- Two characters agree after upper-casing exactly when they agree after
lower-casing. -/
theorem toUpper_eq_iff_toLower_eq (a b : Char) : a.toUpper = b.toUpper ↔ a.toLower = b.toLower := by
  constructor
  · intro h
    apply char_eq_of_toNat_eq
    have h2 := congrArg Char.toNat h
    rw [toNat_toUpper, toNat_toUpper] at h2
    rw [toNat_toLower, toNat_toLower]
    split_ifs at h2 ⊢ <;> omega
  · intro h
    apply char_eq_of_toNat_eq
    have h2 := congrArg Char.toNat h
    rw [toNat_toLower, toNat_toLower] at h2
    rw [toNat_toUpper, toNat_toUpper]
    split_ifs at h2 ⊢ <;> omega


theorem matchAt_nil (inp : List Char) (pos : Nat) : matchAt [] inp pos := by
  simp [matchAt]

theorem matchAt_cons (c : Char) (w inp : List Char) (pos : Nat) :
    matchAt (c :: w) inp pos ↔
      (∃ ch, inp[pos]? = some ch ∧ canonicalize ch = canonicalize c) ∧ matchAt w inp (pos + 1) := by
  unfold matchAt canonicalize
  by_cases h : pos < inp.length
  · rw [List.drop_eq_getElem_cons h, List.map_cons, List.map_cons, List.cons_prefix_cons]
    simp only [List.getElem?_eq_getElem h, Option.some.injEq, exists_eq_left',
      toUpper_eq_iff_toLower_eq]
    constructor
    · rintro ⟨h1, h2⟩
      exact ⟨h1.symm, h2⟩
    · rintro ⟨h1, h2⟩
      exact ⟨h1.symm, h2⟩
  · have hle : inp.length ≤ pos := by omega
    simp [List.drop_eq_nil_of_le hle, List.getElem?_eq_none hle]

theorem matchAt_append (a b inp : List Char) (pos : Nat) :
    matchAt (a ++ b) inp pos ↔ matchAt a inp pos ∧ matchAt b inp (pos + a.length) := by
  induction a generalizing pos with
  | nil => simp [matchAt_nil]
  | cons c a ih =>
    rw [List.cons_append, matchAt_cons, matchAt_cons, ih, List.length_cons]
    have : pos + 1 + a.length = pos + (a.length + 1) := by omega
    rw [this]
    tauto

theorem infix_iff_matchAt (w l : List Char) :
    w.map Char.toLower <:+: l.map Char.toLower ↔ ∃ i, i ≤ l.length ∧ matchAt w l i := by
  unfold matchAt
  constructor
  · rintro ⟨pre, suf, h⟩
    refine ⟨pre.length, ?_, ?_⟩
    · have := congrArg List.length h
      simp at this
      omega
    · rw [List.map_drop, ← h]
      simp
  · rintro ⟨i, -, h⟩
    rw [List.map_drop] at h
    exact List.infix_iff_prefix_suffix.mpr ⟨_, h, List.drop_suffix _ _⟩

theorem mem_ends_seq (a b : Rx) (inp : List Char) (pos p : Nat) :
    p ∈ (Rx.seq a b).ends inp pos ↔ ∃ q, q ∈ a.ends inp pos ∧ p ∈ b.ends inp q := by
  simp [Rx.ends, List.mem_flatMap]

theorem mem_ends_chr (c : Char) (inp : List Char) (pos p : Nat) :
    p ∈ (Rx.chr c).ends inp pos ↔
      (∃ ch, inp[pos]? = some ch ∧ canonicalize ch = canonicalize c) ∧ p = pos + 1 := by
  unfold Rx.ends
  cases h : inp[pos]? with
  | none => simp
  | some ch =>
    by_cases hc : canonicalize ch = canonicalize c <;> simp [hc]

/-- Where a run of literal characters can end: only right behind the word,
and only when the word stands at the start position. -/
theorem mem_ends_lit (w inp : List Char) (pos p : Nat) :
    p ∈ (w.foldr (fun c r => Rx.seq (Rx.chr c) r) Rx.eps).ends inp pos ↔
      matchAt w inp pos ∧ p = pos + w.length := by
  induction w generalizing pos with
  | nil => simp [Rx.ends, matchAt_nil]
  | cons c w ih =>
    rw [List.foldr_cons, mem_ends_seq, matchAt_cons]
    constructor
    · rintro ⟨q, hq, hp⟩
      rw [mem_ends_chr] at hq
      obtain ⟨hch, rfl⟩ := hq
      rw [ih] at hp
      exact ⟨⟨hch, hp.1⟩, by rw [hp.2, List.length_cons]; omega⟩
    · rintro ⟨⟨hch, hw⟩, rfl⟩
      refine ⟨pos + 1, (mem_ends_chr _ _ _ _).mpr ⟨hch, rfl⟩, ?_⟩
      rw [ih]
      exact ⟨hw, by rw [List.length_cons]; omega⟩

theorem mem_ends_alt (a b : Rx) (inp : List Char) (pos p : Nat) :
    p ∈ (Rx.alt a b).ends inp pos ↔ p ∈ a.ends inp pos ∨ p ∈ b.ends inp pos := by
  simp [Rx.ends]

theorem mem_ends_opt (a : Rx) (inp : List Char) (pos p : Nat) :
    p ∈ (Rx.opt a).ends inp pos ↔ p ∈ a.ends inp pos ∨ p = pos := by
  simp [Rx.ends]

theorem mem_ends_bos (inp : List Char) (pos p : Nat) :
    p ∈ Rx.bos.ends inp pos ↔ pos = 0 ∧ p = 0 := by
  unfold Rx.ends
  by_cases h : pos = 0
  · subst h; simp
  · simp [h]

theorem test_iff (r : Rx) (s : String) :
    r.test s = true ↔ ∃ i, i ≤ s.toList.length ∧ ∃ p, p ∈ r.ends s.toList i := by
  unfold Rx.test
  rw [List.any_eq_true]
  constructor
  · rintro ⟨i, hi, h⟩
    refine ⟨i, by have := List.mem_range.mp hi; omega, ?_⟩
    cases hl : r.ends s.toList i with
    | nil => rw [hl] at h; simp at h
    | cons x xs => exact ⟨x, by simp⟩
  · rintro ⟨i, hi, p, hp⟩
    refine ⟨i, List.mem_range.mpr (by omega), ?_⟩
    cases hl : r.ends s.toList i with
    | nil => rw [hl] at hp; simp at hp
    | cons x xs => simp

/-- The literal of enumerateDevices accepts exactly the rear labels. -/
theorem rearRx_test_iff (d : MediaDeviceInfo) : rearRx.test d.label = true ↔ rearLabelled d := by
  rw [test_iff]
  unfold rearLabelled containsIgnoringCase
  rw [infix_iff_matchAt, infix_iff_matchAt, infix_iff_matchAt]
  simp only [rearRx, Rx.lit, mem_ends_alt, mem_ends_lit]
  constructor
  · rintro ⟨i, hi, p, h⟩
    rcases h with h | h | h
    · exact Or.inl ⟨i, hi, h.1⟩
    · exact Or.inr (Or.inl ⟨i, hi, h.1⟩)
    · exact Or.inr (Or.inr ⟨i, hi, h.1⟩)
  · rintro (⟨i, hi, h⟩ | ⟨i, hi, h⟩ | ⟨i, hi, h⟩)
    · exact ⟨i, hi, _, Or.inl ⟨h, rfl⟩⟩
    · exact ⟨i, hi, _, Or.inr (Or.inl ⟨h, rfl⟩)⟩
    · exact ⟨i, hi, _, Or.inr (Or.inr ⟨h, rfl⟩)⟩

/-- The literal of the scan tick accepts exactly the HTTP(S) URLs. -/
theorem urlRx_test_iff (s : String) : urlRx.test s = true ↔ httpUrl s := by
  rw [test_iff]
  unfold httpUrl beginsIgnoringCase
  have e1 : "http://".toList = "http".toList ++ "://".toList := rfl
  have e2 : "https://".toList = "http".toList ++ ('s' :: "://".toList) := rfl
  have m1 : List.map Char.toLower "http://".toList <+: List.map Char.toLower s.toList ↔
      matchAt "http://".toList s.toList 0 := by simp [matchAt]
  have m2 : List.map Char.toLower "https://".toList <+: List.map Char.toLower s.toList ↔
      matchAt "https://".toList s.toList 0 := by simp [matchAt]
  rw [m1, m2, e1, e2, matchAt_append, matchAt_append, matchAt_cons]
  simp only [urlRx, Rx.lit, mem_ends_seq, mem_ends_bos, mem_ends_opt, mem_ends_chr, mem_ends_lit]
  have l4 : "http".toList.length = 4 := rfl
  rw [l4]
  constructor
  · rintro ⟨i, -, p, q, ⟨rfl, rfl⟩, q2, ⟨hh, rfl⟩, q3, hq3, hp⟩
    rcases hq3 with ⟨hs, rfl⟩ | rfl
    · exact Or.inr ⟨hh, hs, hp.1⟩
    · exact Or.inl ⟨hh, hp.1⟩
  · rintro (⟨hh, ht⟩ | ⟨hh, hs, ht⟩)
    · exact ⟨0, Nat.zero_le _, _, 0, ⟨rfl, rfl⟩, _, ⟨hh, rfl⟩, _, Or.inr rfl, ht, rfl⟩
    · exact ⟨0, Nat.zero_le _, _, 0, ⟨rfl, rfl⟩, _, ⟨hh, rfl⟩, _, Or.inl ⟨hs, rfl⟩, ht, rfl⟩

/-! ## Device enumeration -/

theorem findIndexFrom_of_exists {α : Type} (p : α → Bool) (l : List α) (k : Nat)
    (h : ∃ x ∈ l, p x = true) :
    ∃ j x, findIndexFrom p l k = ((k + j : Nat) : Int) ∧ l[j]? = some x ∧ p x = true := by
  induction l generalizing k with
  | nil => simp at h
  | cons a l ih =>
    unfold findIndexFrom
    by_cases ha : p a = true
    · exact ⟨0, a, by simp [ha], by simp, ha⟩
    · have h2 : ∃ x ∈ l, p x = true := by
        obtain ⟨x, hx, hpx⟩ := h
        rcases List.mem_cons.mp hx with rfl | hx
        · exact absurd hpx ha
        · exact ⟨x, hx, hpx⟩
      obtain ⟨j, x, h1, h2, h3⟩ := ih (k + 1) h2
      refine ⟨j + 1, x, ?_, by simpa using h2, h3⟩
      simp only [ha, Bool.false_eq_true, if_false, h1]
      push_cast
      ring

/-! ## Counting over the heaps -/

theorem countP_range_single (p : Nat → Bool) (n k : Nat) (hk : k < n) (hp : p k = true)
    (hq : ∀ i, i < n → i ≠ k → p i = false) : (List.range n).countP p = 1 := by
  induction n with
  | zero => omega
  | succ m ih =>
    rw [List.range_succ, List.countP_append]
    by_cases hkm : k = m
    · subst hkm
      have h0 : (List.range k).countP p = 0 := by
        rw [List.countP_eq_zero]
        intro i hi
        have hlt := List.mem_range.mp hi
        simp [hq i (by omega) (by omega)]
      simp [h0, hp]
    · have hlt : k < m := by omega
      have hm : p m = false := hq m (by omega) (Ne.symm hkm)
      simp [ih hlt (fun i hi hne => hq i (by omega) hne), hm]

/-- Counting over the identities below `m + 1` when all but the last count. -/
theorem countP_range_all_but_last (p : Nat → Bool) (m : Nat) (hp : ∀ i, i < m → p i = true)
    (hm : p m = false) : (List.range (m + 1)).countP p = m := by
  rw [List.range_succ, List.countP_append]
  have h1 : (List.range m).countP p = (List.range m).length := by
    rw [List.countP_eq_length]
    intro i hi
    exact hp i (List.mem_range.mp hi)
  simp [h1, hm]

theorem countP_range_none (p : Nat → Bool) (n : Nat) (hq : ∀ i, p i = false) :
    (List.range n).countP p = 0 := by
  rw [List.countP_eq_zero]
  intro i _
  simp [hq i]

/-! ## Streams -/

theorem isStopped_stopAll (m : MediaStream) : m.stopAll.isStopped = true := by
  simp [MediaStream.isStopped, MediaStream.stopAll, MediaStream.getTracks, Track.stop]

theorem isOpen_create (o : StreamOffer) : o.create.isOpen = true := by
  simp [MediaStream.isOpen, StreamOffer.create, MediaStream.getTracks]

theorem isStopped_create (o : StreamOffer) : o.create.isStopped = false := by
  simp [MediaStream.isStopped, StreamOffer.create, MediaStream.getTracks]

theorem not_isOpen_of_isStopped (m : MediaStream) (h : m.isStopped = true) : m.isOpen = false := by
  simp only [MediaStream.isStopped, MediaStream.isOpen, MediaStream.getTracks, List.all_cons,
    Bool.and_eq_true, Bool.not_eq_true'] at h ⊢
  simp [h.1]

/-- What a granted `startCamera` call leaves behind. -/
theorem startCamera_granted (s : State) (d : Option String) (o : StreamOffer) (h : Released s) :
    (startCamera s d (.granted o)).2 = .ok true ∧
    (startCamera s d (.granted o)).1.streamCount = s.streamCount + 1 ∧
    (startCamera s d (.granted o)).1.currentStream = some s.streamCount ∧
    ((startCamera s d (.granted o)).1.streams s.streamCount).isOpen = true ∧
    ((startCamera s d (.granted o)).1.streams s.streamCount).isStopped = false ∧
    (∀ i, i < s.streamCount → ((startCamera s d (.granted o)).1.streams i).isStopped = true) ∧
    (startCamera s d (.granted o)).1.log =
      s.log ++ sessionLog s.currentStream s.streamCount [d] := by
  cases hc : s.currentStream with
  | none =>
    simp only [startCamera, hc, sessionLog]
    refine ⟨trivial, trivial, trivial, ?_, ?_, ?_, ?_⟩
    · simp [isOpen_create]
    · simp [isStopped_create]
    · intro i hi
      rw [Function.update_noteq (by omega)]
      exact h i hi (by simp [hc])
    · simp
  | some id =>
    simp only [startCamera, hc, sessionLog]
    refine ⟨trivial, trivial, trivial, ?_, ?_, ?_, ?_⟩
    · simp [isOpen_create]
    · simp [isStopped_create]
    · intro i hi
      rw [Function.update_noteq (by omega)]
      by_cases hid : i = id
      · subst hid
        simp [isStopped_stopAll]
      · rw [Function.update_noteq hid]
        exact h i hi (by simp [hc]; omega)
    · simp

theorem released_of_granted (s : State) (d : Option String) (o : StreamOffer) (h : Released s) :
    Released (startCamera s d (.granted o)).1 := by
  obtain ⟨-, h1, h2, -, -, h5, -⟩ := startCamera_granted s d o h
  intro i hi hne
  rw [h1] at hi
  rw [h2] at hne
  have : i ≠ s.streamCount := fun e => hne (by rw [e])
  exact h5 i (by omega)

theorem sessionLog_cons (prev : Option Nat) (next : Nat) (d : Option String)
    (ds : List (Option String)) :
    sessionLog prev next (d :: ds) =
      sessionLog prev next [d] ++ sessionLog (some next) (next + 1) ds := by
  simp [sessionLog]

/-- In the requests of a run, the stop of each stream but the last comes
right before the request that is answered with the next stream. -/
theorem sessionLog_stop_before (ds : List (Option String)) (prev : Option Nat) (next i : Nat)
    (h : i + 1 < ds.length) :
    ∃ pre post r, sessionLog prev next ds =
      pre ++ [Event.stopped (next + i), Event.requested r, Event.granted (next + i + 1)] ++ post := by
  induction ds generalizing prev next i with
  | nil => simp at h
  | cons d ds ih =>
    cases i with
    | zero =>
      cases ds with
      | nil => simp at h
      | cons d2 ds2 =>
        refine ⟨sessionLog prev next [d], sessionLog (some (next + 1)) (next + 2) ds2,
          videoRequest d2, ?_⟩
        rw [sessionLog_cons]
        simp [sessionLog]
    | succ j =>
      have hj : j + 1 < ds.length := by simpa using h
      obtain ⟨pre, post, r, e⟩ := ih (some next) (next + 1) j hj
      refine ⟨sessionLog prev next [d] ++ pre, post, r, ?_⟩
      rw [sessionLog_cons, e]
      have e1 : next + 1 + j = next + (j + 1) := by omega
      rw [e1]
      simp

/-- What a non-empty run of granted `startCamera` calls leaves behind. -/
theorem startCameras_granted (calls : List (Option String × StreamOffer)) (s : State)
    (h : Released s) (hne : calls ≠ []) :
    (startCameras s calls).streamCount = s.streamCount + calls.length ∧
    (startCameras s calls).currentStream = some (s.streamCount + calls.length - 1) ∧
    ((startCameras s calls).streams (s.streamCount + calls.length - 1)).isOpen = true ∧
    ((startCameras s calls).streams (s.streamCount + calls.length - 1)).isStopped = false ∧
    (∀ i, i < s.streamCount + calls.length - 1 →
      ((startCameras s calls).streams i).isStopped = true) ∧
    (startCameras s calls).log =
      s.log ++ sessionLog s.currentStream s.streamCount (calls.map Prod.fst) := by
  induction calls generalizing s with
  | nil => exact absurd rfl hne
  | cons c cs ih =>
    obtain ⟨-, h1, h2, h3, h4, h5, h6⟩ := startCamera_granted s c.1 c.2 h
    by_cases hcs : cs = []
    · subst hcs
      simp only [startCameras, List.length_singleton, List.map_cons, List.map_nil,
        Nat.add_sub_cancel]
      exact ⟨h1, h2, h3, h4, h5, h6⟩
    · obtain ⟨k1, k2, k3, k4, k5, k6⟩ :=
        ih (startCamera s c.1 (.granted c.2)).1 (released_of_granted s c.1 c.2 h) hcs
      have e : s.streamCount + 1 + cs.length - 1 = s.streamCount + (c :: cs).length - 1 := by
        simp only [List.length_cons]; omega
      rw [h1, e] at k2 k3 k4 k5
      rw [h1] at k1
      rw [h1, h2, h6] at k6
      refine ⟨?_, k2, k3, k4, k5, ?_⟩
      · simp only [startCameras, List.length_cons]
        rw [k1]; omega
      · simp only [startCameras, List.map_cons]
        rw [k6, List.append_assoc]
        exact congrArg _ (sessionLog_cons _ _ _ _).symm

/-! ## Rounding to doubles -/

theorem roundHalfEven_intCast (n : ℤ) : roundHalfEven (n : ℚ) = n := by
  simp [roundHalfEven]

theorem floor_le_roundHalfEven (q : ℚ) : ⌊q⌋ ≤ roundHalfEven q := by
  unfold roundHalfEven
  split_ifs <;> omega

theorem roundHalfEven_le_floor_add_one (q : ℚ) : roundHalfEven q ≤ ⌊q⌋ + 1 := by
  unfold roundHalfEven
  split_ifs <;> omega

/-- An integer below `q` is below the rounding of `q`. -/
theorem intCast_le_roundHalfEven (k : ℤ) (q : ℚ) (h : (k : ℚ) ≤ q) : k ≤ roundHalfEven q :=
  le_trans (Int.le_floor.mpr h) (floor_le_roundHalfEven q)

/-- Rounding to the nearest integer is odd: ties go to the even neighbour on
both sides of zero. -/
theorem roundHalfEven_neg (q : ℚ) : roundHalfEven (-q) = -roundHalfEven q := by
  by_cases hint : (⌊q⌋ : ℚ) = q
  · rw [← hint, ← Int.cast_neg, roundHalfEven_intCast, roundHalfEven_intCast]
  · have hlt : (⌊q⌋ : ℚ) < q := lt_of_le_of_ne (Int.floor_le q) hint
    have hlt2 : q < ⌊q⌋ + 1 := Int.lt_floor_add_one q
    have hfl : ⌊-q⌋ = -⌊q⌋ - 1 := by
      rw [Int.floor_eq_iff]
      push_cast
      constructor <;> linarith
    unfold roundHalfEven
    rw [hfl]
    push_cast
    split_ifs <;> first | omega | (exfalso; linarith)

theorem ulpExp_neg (q : ℚ) : ulpExp (-q) = ulpExp q := by
  simp [ulpExp]

theorem toDouble_neg (q : ℚ) : toDouble (-q) = -toDouble q := by
  unfold toDouble
  rw [ulpExp_neg, neg_div, roundHalfEven_neg]
  push_cast
  ring

theorem ulpExp_eq (q : ℚ) (e : ℤ) (h1 : (2 : ℚ) ^ e ≤ |q|) (h2 : |q| < 2 ^ (e + 1))
    (h3 : -1022 ≤ e) : ulpExp q = e - 52 := by
  have hpos : 0 < |q| := lt_of_lt_of_le (by positivity) h1
  have hlog : Int.log 2 |q| = e := by
    apply le_antisymm
    · have := (Int.lt_zpow_iff_log_lt (b := 2) (by norm_num) hpos).mp (by exact_mod_cast h2)
      omega
    · exact (Int.zpow_le_iff_le_log (b := 2) (by norm_num) hpos).mp (by exact_mod_cast h1)
  unfold ulpExp
  rw [hlog, max_eq_left h3]

/-- A multiple of the spacing of its own binade is a double. -/
theorem toDouble_of_multiple (q : ℚ) (e n : ℤ) (h1 : (2 : ℚ) ^ e ≤ |q|) (h2 : |q| < 2 ^ (e + 1))
    (h3 : -1022 ≤ e) (hn : q = n * 2 ^ (e - 52)) : toDouble q = q := by
  unfold toDouble
  rw [ulpExp_eq q e h1 h2 h3]
  have hpos : (0 : ℚ) < 2 ^ (e - 52) := by positivity
  have : q / 2 ^ (e - 52) = n := by
    rw [hn]; field_simp
  rw [this, roundHalfEven_intCast, ← hn]

theorem toDouble_zero : toDouble 0 = 0 := by
  simp [toDouble, roundHalfEven]

/-- A value closer than one half to an integer rounds to it. -/
theorem roundHalfEven_of_abs_lt (q : ℚ) (n : ℤ) (h : |q - n| < 1 / 2) : roundHalfEven q = n := by
  rw [abs_lt] at h
  by_cases hq : (n : ℚ) ≤ q
  · have hfl : ⌊q⌋ = n := by
      rw [Int.floor_eq_iff]
      constructor <;> linarith
    unfold roundHalfEven
    rw [hfl, if_pos (by linarith)]
  · have hfl : ⌊q⌋ = n - 1 := by
      rw [Int.floor_eq_iff]
      push_cast
      constructor <;> linarith
    unfold roundHalfEven
    rw [hfl]
    push_cast
    rw [if_neg (by linarith), if_pos (by linarith)]
    omega

/-- The double nearest to a value of binade `e` that is closer than half a
spacing to the multiple `n` of the spacing. -/
theorem toDouble_of_near (q : ℚ) (e n : ℤ) (h1 : (2 : ℚ) ^ e ≤ |q|) (h2 : |q| < 2 ^ (e + 1))
    (h3 : -1022 ≤ e) (hn : |q / 2 ^ (e - 52) - n| < 1 / 2) :
    toDouble q = n * 2 ^ (e - 52) := by
  unfold toDouble
  rw [ulpExp_eq q e h1 h2 h3, roundHalfEven_of_abs_lt _ n hn]

theorem ulpExp_mono (a x : ℚ) (ha : a ≠ 0) (h : |a| ≤ |x|) : ulpExp a ≤ ulpExp x := by
  unfold ulpExp
  have := Int.log_mono_right (b := 2) (abs_pos.mpr ha) h
  have := max_le_max this (le_refl (-1022 : ℤ))
  omega

/-- A double below an exact value is below the double nearest to that value. -/
theorem le_toDouble (a x : ℚ) (ha : toDouble a = a) (h : a ≤ x) : a ≤ toDouble x := by
  have hU : (0 : ℚ) < 2 ^ ulpExp x := by positivity
  have key : ∃ k : ℤ, a ≤ k * 2 ^ ulpExp x ∧ (k : ℚ) * 2 ^ ulpExp x ≤ x := by
    by_cases hx0 : 0 ≤ x
    · by_cases ha0 : a ≤ 0
      · exact ⟨0, by simpa using ha0, by simpa using hx0⟩
      · have ha0 : 0 < a := lt_of_not_le ha0
        have hx0 : 0 < x := lt_of_lt_of_le ha0 h
        have hmono : ulpExp a ≤ ulpExp x :=
          ulpExp_mono a x (ne_of_gt ha0) (by rw [abs_of_pos ha0, abs_of_pos hx0]; exact h)
        rcases eq_or_lt_of_le hmono with heq | hlt
        · refine ⟨roundHalfEven (a / 2 ^ ulpExp a), ?_, ?_⟩
          · rw [← heq]; exact le_of_eq ha.symm
          · rw [← heq]
            have : (roundHalfEven (a / 2 ^ ulpExp a) : ℚ) * 2 ^ ulpExp a = a := ha
            rw [this]; exact h
        · have hlog : Int.log 2 |a| < Int.log 2 |x| ∧ -1022 < Int.log 2 |x| := by
            unfold ulpExp at hlt
            have h1 := le_max_left (Int.log 2 |a|) (-1022)
            have h2 := le_max_right (Int.log 2 |a|) (-1022)
            rcases max_cases (Int.log 2 |x|) (-1022) with ⟨e1, _⟩ | ⟨e1, _⟩ <;> omega
          have hux : ulpExp x = Int.log 2 |x| - 52 := by
            unfold ulpExp
            rw [max_eq_left (by omega)]
          have hc : (((2 : ℤ) ^ 52 : ℤ) : ℚ) = (2 : ℚ) ^ (52 : ℤ) := by norm_num
          have hpow : (((2 : ℤ) ^ 52 : ℤ) : ℚ) * (2 : ℚ) ^ ulpExp x = 2 ^ Int.log 2 |x| := by
            rw [hc, ← zpow_add₀ (by norm_num), hux]
            congr 1
            ring
          have haa : |a| = a := abs_of_pos ha0
          have hxx : |x| = x := abs_of_pos hx0
          have h1 : |a| < (2 : ℚ) ^ (Int.log 2 |a| + 1) := by
            exact_mod_cast Int.lt_zpow_succ_log_self (b := 2) (by norm_num) |a|
          have h2 : (2 : ℚ) ^ (Int.log 2 |a| + 1) ≤ 2 ^ Int.log 2 |x| :=
            zpow_le_zpow_right₀ (by norm_num) (by omega)
          have h3 : (2 : ℚ) ^ Int.log 2 |x| ≤ |x| := by
            exact_mod_cast Int.zpow_log_le_self (b := 2) (by norm_num) (abs_pos.mpr (ne_of_gt hx0))
          refine ⟨2 ^ 52, ?_, ?_⟩
          · rw [hpow]; linarith
          · rw [hpow]; linarith
    · have hx0 : x < 0 := lt_of_not_le hx0
      have ha0 : a < 0 := lt_of_le_of_lt h hx0
      have hmono : ulpExp x ≤ ulpExp a :=
        ulpExp_mono x a (ne_of_lt hx0) (by rw [abs_of_neg ha0, abs_of_neg hx0]; linarith)
      refine ⟨roundHalfEven (a / 2 ^ ulpExp a) * 2 ^ (ulpExp a - ulpExp x).toNat, ?_, ?_⟩
      all_goals
        have hk : ((roundHalfEven (a / 2 ^ ulpExp a) * 2 ^ (ulpExp a - ulpExp x).toNat : ℤ) : ℚ)
            * 2 ^ ulpExp x = a := by
          push_cast
          rw [mul_assoc, ← zpow_natCast, ← zpow_add₀ (by norm_num)]
          have : (((ulpExp a - ulpExp x).toNat : ℤ)) + ulpExp x = ulpExp a := by
            rw [Int.toNat_of_nonneg (by omega)]; ring
          rw [this]
          exact ha
        rw [hk]
      exact h
  obtain ⟨k, hk1, hk2⟩ := key
  have hk3 : (k : ℚ) ≤ x / 2 ^ ulpExp x := by
    rw [le_div_iff₀ hU]; exact hk2
  have hk4 : k ≤ roundHalfEven (x / 2 ^ ulpExp x) := intCast_le_roundHalfEven k _ hk3
  have hk5 : (k : ℚ) * 2 ^ ulpExp x ≤ toDouble x := by
    unfold toDouble
    exact mul_le_mul_of_nonneg_right (by exact_mod_cast hk4) (le_of_lt hU)
  linarith

/-- A double above an exact value is above the double nearest to that value. -/
theorem toDouble_le (a x : ℚ) (ha : toDouble a = a) (h : x ≤ a) : toDouble x ≤ a := by
  have h1 := le_toDouble (-a) (-x) (by rw [toDouble_neg, ha]) (by linarith)
  rw [toDouble_neg] at h1
  linarith

theorem toDouble_of_multiple_pos (q : ℚ) (e n : ℤ) (h1 : (2 : ℚ) ^ e ≤ q) (h2 : q < 2 ^ (e + 1))
    (h3 : -1022 ≤ e) (hn : q = n * 2 ^ (e - 52)) : toDouble q = q := by
  have hq : 0 < q := lt_of_lt_of_le (by positivity) h1
  exact toDouble_of_multiple q e n (by rwa [abs_of_pos hq]) (by rwa [abs_of_pos hq]) h3 hn

theorem toDouble_of_near_pos (q : ℚ) (e n : ℤ) (h1 : (2 : ℚ) ^ e ≤ q) (h2 : q < 2 ^ (e + 1))
    (h3 : -1022 ≤ e) (hlo : (n : ℚ) - 1 / 2 < q / 2 ^ (e - 52))
    (hhi : q / 2 ^ (e - 52) < n + 1 / 2) : toDouble q = n * 2 ^ (e - 52) := by
  have hq : 0 < q := lt_of_lt_of_le (by positivity) h1
  exact toDouble_of_near q e n (by rwa [abs_of_pos hq]) (by rwa [abs_of_pos hq]) h3
    (by rw [abs_lt]; constructor <;> linarith)

theorem toDouble_half : toDouble (1 / 2) = 1 / 2 := by
  apply toDouble_of_multiple_pos (1 / 2) (-1) (2 ^ 52) <;> norm_num

theorem toDouble_one : toDouble 1 = 1 := by
  apply toDouble_of_multiple_pos 1 0 (2 ^ 52) <;> norm_num

/-- The literal `0.2` of the script. -/
theorem toDouble_fifth : toDouble (1 / 5) = 3602879701896397 / 18014398509481984 := by
  rw [toDouble_of_near_pos (1 / 5) (-3) 7205759403792794] <;> norm_num

/-! ## Torch and zoom -/

theorem accept_track (s : State) (id : Nat) (c : Constraint) :
    (s.accept id c).track id = { s.track id with applied := (s.track id).applied ++ [c] } := by
  simp [State.accept, State.track]

/-- The state a resolved toggle leaves behind. -/
theorem toggleTorch_resolved (s : State) (id : Nat) (caps : Capabilities)
    (hv : s.videoTrack = some id) (hc : (s.track id).getCapabilities = some caps)
    (ht : caps.torch = true) :
    (toggleTorch s (.ok ())).2 = .ok () ∧
    (toggleTorch s (.ok ())).1.videoTrack = some id ∧
    ((toggleTorch s (.ok ())).1.track id).getCapabilities = some caps ∧
    ((toggleTorch s (.ok ())).1.track id).applied =
      (s.track id).applied ++ [.torch (!s.torchOn)] ∧
    (toggleTorch s (.ok ())).1.torchOn = !s.torchOn := by
  have h1 : toggleTorch s (.ok ()) =
      ({ s.accept id (.torch (!s.torchOn)) with
          flashBtnOn := some (if !s.torchOn then "true" else "false")
          flashBtnText :=
            if !s.torchOn then "ðŸ”¦ Flash On" else "ðŸ”¦ Flash Off" }, .ok ()) := by
    simp [toggleTorch, hv, hc, ht]
  rw [h1]
  refine ⟨rfl, ?_, ?_, ?_, ?_⟩
  · simpa [State.accept] using hv
  · simpa [State.accept, State.track] using hc
  · simp [State.accept, State.track]
  · cases hon : s.torchOn <;> simp [State.torchOn]

theorem clamp_eq_max_min (x lo hi : ℚ) (h : lo ≤ hi) : clamp x lo hi = max lo (min hi x) := by
  unfold clamp
  split_ifs with h1 h2
  · rw [min_eq_right (by linarith), max_eq_left (by linarith)]
  · rw [min_eq_left (by linarith), max_eq_right h]
  · rw [min_eq_right (by linarith), max_eq_right (by linarith)]

/-- The level `applyZoom` computes from a non-zero live zoom: the live zoom
plus the direction times the step, both operations rounded, then bounded. -/
theorem nextZoom_of_ne_zero (live lo hi d : ℚ) (step : JSNum) (hl : live ≠ 0) :
    nextZoom (some live) ⟨some lo, some hi, step⟩ d =
      some (max lo (min hi (toDouble (live + toDouble (d * effectiveStep step))))) := by
  cases step with
  | none => simp [nextZoom, orElse, truthy, hl, jsAdd, jsMul, mathMin, mathMax, effectiveStep]
  | some q =>
    by_cases hs : q = 0
    · simp [nextZoom, orElse, truthy, hl, hs, jsAdd, jsMul, mathMin, mathMax, effectiveStep]
    · simp [nextZoom, orElse, truthy, hl, hs, jsAdd, jsMul, mathMin, mathMax, effectiveStep]

theorem applyZoom_resolved (s : State) (id : Nat) (zc : ZoomRange)
    (hv : s.videoTrack = some id) (hz : s.zoomCap = some zc) (d : ℚ) :
    (applyZoom s d (.ok ())).2 = .ok () ∧
    (applyZoom s d (.ok ())).1.currentZoom = nextZoom (s.track id).zoomSetting zc d ∧
    ((applyZoom s d (.ok ())).1.track id).applied =
      (s.track id).applied ++ [.zoom (nextZoom (s.track id).zoomSetting zc d)] := by
  simp [applyZoom, hv, hz, State.accept, State.track]

theorem effectiveStep_nonneg (step : ℚ) (h : 0 ≤ step) : 0 ≤ effectiveStep (some step) := by
  simp only [effectiveStep]
  split_ifs
  · rw [toDouble_fifth]; norm_num
  · exact h

/-- At a non-zero maximum that is a double, a zoom-in by a step that is not
negative is bounded back to the maximum. -/
theorem nextZoom_at_max (lo hi step : ℚ) (hle : lo ≤ hi) (hs : 0 ≤ step) (hne : hi ≠ 0)
    (hhi : toDouble hi = hi) :
    nextZoom (some hi) ⟨some lo, some hi, some step⟩ 1 = some hi := by
  rw [nextZoom_of_ne_zero _ _ _ _ _ hne]
  have h1 : 0 ≤ toDouble (1 * effectiveStep (some step)) :=
    le_toDouble 0 _ toDouble_zero (by simpa using effectiveStep_nonneg step hs)
  have h2 : hi ≤ toDouble (hi + toDouble (1 * effectiveStep (some step))) :=
    le_toDouble hi _ hhi (by linarith)
  rw [min_eq_left h2, max_eq_right hle]

/-- At a non-zero minimum that is a double, a zoom-out by a step that is not
negative is bounded back to the minimum. -/
theorem nextZoom_at_min (lo hi step : ℚ) (hle : lo ≤ hi) (hs : 0 ≤ step) (hne : lo ≠ 0)
    (hlo : toDouble lo = lo) :
    nextZoom (some lo) ⟨some lo, some hi, some step⟩ (-1) = some lo := by
  rw [nextZoom_of_ne_zero _ _ _ _ _ hne]
  have h1 : toDouble (-1 * effectiveStep (some step)) ≤ 0 :=
    toDouble_le 0 _ toDouble_zero (by have := effectiveStep_nonneg step hs; linarith)
  have h2 : toDouble (lo + toDouble (-1 * effectiveStep (some step))) ≤ lo :=
    toDouble_le lo _ hlo (by linarith)
  rw [min_eq_right (by linarith), max_eq_left h2]

/-! ## Pose readout -/

theorem eyeStep_some (s : State) (lm : List Landmark) (acc : List (ℚ × ℚ) × List String) (i : Nat)
    (p : Landmark) (hp : lm[i]? = some p) :
    eyeStep s lm acc i = if jsGt p.visibility (some (1 / 2)) then
      (acc.1 ++ [(toDouble (p.x * s.overlayWidth), toDouble (p.y * s.overlayHeight))],
        acc.2 ++ [EYE_NAMES i]) else acc := by
  unfold eyeStep
  rw [hp]

theorem eyeStep_none (s : State) (lm : List Landmark) (acc : List (ℚ × ℚ) × List String) (i : Nat)
    (hp : lm[i]? = none) : eyeStep s lm acc i = acc := by
  unfold eyeStep
  rw [hp]

/-- The names collected by one round of `onPose`. -/
theorem eyeStep_snd (s : State) (r : PoseResults) (acc : List (ℚ × ℚ) × List String) (i : Nat) :
    (eyeStep s (r.poseLandmarks.getD []) acc i).2 =
      acc.2 ++ (if qualifies r i then [EYE_NAMES i] else []) := by
  cases hl : r.poseLandmarks with
  | none => simp [eyeStep_none, qualifies, hl]
  | some lm =>
    simp only [Option.getD_some]
    cases hp : lm[i]? with
    | none => simp [eyeStep_none _ _ _ _ hp, qualifies, hl, hp]
    | some p =>
      rw [eyeStep_some _ _ _ _ p hp]
      cases hv : p.visibility with
      | none => simp [jsGt, qualifies, hl, hp, hv]
      | some v =>
        by_cases h : 1 / 2 < v
        · have h2 : (2 : ℚ)⁻¹ < v := by simpa using h
          simp [jsGt, qualifies, hl, hp, hv, h2]
        · have h2 : ¬ (2 : ℚ)⁻¹ < v := by simpa using h
          simp [jsGt, qualifies, hl, hp, hv, h2]

theorem onPose_detectedName (s : State) (r : PoseResults) :
    (onPose s r).detectedName = readout r := by
  have h : (onPose s r).detectedName =
      (if ((eyeStep s (r.poseLandmarks.getD [])
            (eyeStep s (r.poseLandmarks.getD []) ([], []) LEFT_EYE) RIGHT_EYE).2.length ≠ 0)
        then ", ".intercalate (eyeStep s (r.poseLandmarks.getD [])
            (eyeStep s (r.poseLandmarks.getD []) ([], []) LEFT_EYE) RIGHT_EYE).2
        else "None") := rfl
  rw [h, eyeStep_snd, eyeStep_snd]
  unfold readout qualifyingNames
  cases h2 : qualifies r 2 <;> cases h5 : qualifies r 5 <;>
    simp [h2, h5, EYE_NAMES, LEFT_EYE, RIGHT_EYE]

/-! ## The claims -/

/-- Claim C1. When some video-input entry of the listing is rear-labelled,
enumerateDevices completes normally, keeps exactly the video-input entries, and
leaves `currentDeviceIndex` a valid index into them whose device is
rear-labelled. -/
theorem enumerateDevices_selects_rear (s : State) (all : List MediaDeviceInfo)
    (h : ∃ d ∈ all, d.kind = "videoinput" ∧ rearLabelled d) :
    (enumerateDevices s (.ok all)).2 = .ok () ∧
    (enumerateDevices s (.ok all)).1.devices = all.filter (fun d => d.kind == "videoinput") ∧
    0 ≤ (enumerateDevices s (.ok all)).1.currentDeviceIndex ∧
    (enumerateDevices s (.ok all)).1.currentDeviceIndex <
      (enumerateDevices s (.ok all)).1.devices.length ∧
    ∃ d, index (enumerateDevices s (.ok all)).1.devices
        (enumerateDevices s (.ok all)).1.currentDeviceIndex = some d ∧ rearLabelled d := by
  have hex : ∃ x ∈ all.filter (fun d => d.kind == "videoinput"), rearRx.test x.label = true := by
    obtain ⟨d, hd, hk, hr⟩ := h
    exact ⟨d, List.mem_filter.mpr ⟨hd, by simp [hk]⟩, (rearRx_test_iff d).mpr hr⟩
  obtain ⟨j, x, hj, hx, hp⟩ := findIndexFrom_of_exists _ _ 0 hex
  have hidx : findIndex (fun d => rearRx.test d.label)
      (all.filter (fun d => d.kind == "videoinput")) = (j : Int) := by
    unfold findIndex
    rw [hj]
    simp
  have hlt : j < (all.filter (fun d => d.kind == "videoinput")).length :=
    (List.getElem?_eq_some.mp hx).1
  have hs : (enumerateDevices s (.ok all)).1.devices =
      all.filter (fun d => d.kind == "videoinput") := by
    simp only [enumerateDevices]
    split_ifs <;> rfl
  have hi : (enumerateDevices s (.ok all)).1.currentDeviceIndex = (j : Int) := by
    simp only [enumerateDevices, hidx]
    simp
  refine ⟨rfl, hs, ?_, ?_, x, ?_, (rearRx_test_iff x).mp hp⟩
  · rw [hi]; exact Int.natCast_nonneg j
  · rw [hi, hs]; exact_mod_cast hlt
  · rw [hi, hs]
    simp [index, hx]

/-- A listing with a microphone, a front camera and a back camera. -/
theorem enumerateDevices_selects_rear_witness :
    ∃ d, index (enumerateDevices freshPage (.ok
          [⟨"audioinput", "Microphone", "m"⟩, ⟨"videoinput", "Front Camera", "f"⟩,
           ⟨"videoinput", "Back Camera", "b"⟩])).1.devices
        (enumerateDevices freshPage (.ok
          [⟨"audioinput", "Microphone", "m"⟩, ⟨"videoinput", "Front Camera", "f"⟩,
           ⟨"videoinput", "Back Camera", "b"⟩])).1.currentDeviceIndex = some d ∧
      rearLabelled d :=
  (enumerateDevices_selects_rear freshPage
    [⟨"audioinput", "Microphone", "m"⟩, ⟨"videoinput", "Front Camera", "f"⟩,
     ⟨"videoinput", "Back Camera", "b"⟩]
    ⟨⟨"videoinput", "Back Camera", "b"⟩, by simp, rfl,
      Or.inl ⟨[], " camera".toList, rfl⟩⟩).2.2.2.2

/-- Claim C2, amended. For a capability (min, max, step), a non-zero live zoom
`current` and a direction d (the script passes +1 and -1), a resolved applyZoom
applies to the
track and stores in `currentZoom` the level max(min, min(max, current + d * step'))
with the sum and the product rounded as JavaScript rounds them, where step' is
the step, or 0.2 when the step is absent or 0; this level is the clamp of the
sum to the range whenever min <= max. -/
theorem applyZoom_clamps (s : State) (id : Nat) (lo hi current d : ℚ) (step : JSNum)
    (hv : s.videoTrack = some id)
    (hz : s.zoomCap = some ⟨some lo, some hi, step⟩)
    (hlive : (s.track id).zoomSetting = some current)
    (hcur : current ≠ 0) :
    (applyZoom s d (.ok ())).2 = .ok () ∧
    (applyZoom s d (.ok ())).1.currentZoom =
      some (max lo (min hi (toDouble (current + toDouble (d * effectiveStep step))))) ∧
    ((applyZoom s d (.ok ())).1.track id).applied = (s.track id).applied ++
      [.zoom (some (max lo (min hi (toDouble (current + toDouble (d * effectiveStep step))))))] ∧
    (lo ≤ hi → (applyZoom s d (.ok ())).1.currentZoom =
      some (clamp (toDouble (current + toDouble (d * effectiveStep step))) lo hi)) := by
  obtain ⟨h1, h2, h3⟩ := applyZoom_resolved s id _ hv hz d
  rw [hlive, nextZoom_of_ne_zero _ _ _ _ _ hcur] at h2 h3
  refine ⟨h1, h2, h3, fun hle => ?_⟩
  rw [h2, clamp_eq_max_min _ _ _ hle]

/-- With range 1 to 5, step 0.5 and the live zoom 4.8 (the double nearest to
it), one zoom-in yields 5. -/
theorem applyZoom_clamps_witness :
    (applyZoom (cameraPage (sampleOffer (some ⟨some 1, some 5, some (1 / 2)⟩)
      (some (5404319552844595 / 1125899906842624)) false)) 1 (.ok ())).1.currentZoom = some 5 := by
  have h := (applyZoom_clamps (cameraPage (sampleOffer (some ⟨some 1, some 5, some (1 / 2)⟩)
    (some (5404319552844595 / 1125899906842624)) false))
    0 1 5 (5404319552844595 / 1125899906842624) 1 (some (1 / 2)) rfl rfl rfl
    (by norm_num)).2.1
  have e1 : effectiveStep (some (1 / 2)) = 1 / 2 := by norm_num [effectiveStep]
  have e2 : toDouble (5404319552844595 / 1125899906842624 + 1 / 2) =
      5967269506265907 / 1125899906842624 := by
    have e : (5404319552844595 / 1125899906842624 + 1 / 2 : ℚ) =
        5967269506265907 / 1125899906842624 := by norm_num
    rw [e]
    apply toDouble_of_multiple_pos _ 2 5967269506265907 <;> norm_num
  rw [h, e1, one_mul, toDouble_half, e2]
  norm_num

/-- A step of 0 is replaced by 0.2: with range 1 to 5, step 0 and live zoom 2,
a zoom-in stores 2.2 (the double nearest to it), where the clamp of
2 + 1 * 0 is 2. -/
theorem applyZoom_step_default :
    (cameraPage (sampleOffer (some ⟨some 1, some 5, some 0⟩) (some 2) false)).zoomCap
      = some ⟨some 1, some 5, some 0⟩ ∧
    ((cameraPage (sampleOffer (some ⟨some 1, some 5, some 0⟩) (some 2) false)).track 0).zoomSetting
      = some 2 ∧
    (applyZoom (cameraPage (sampleOffer (some ⟨some 1, some 5, some 0⟩) (some 2) false))
      1 (.ok ())).1.currentZoom = some (2476979795053773 / 1125899906842624) ∧
    clamp (toDouble (2 + toDouble (1 * 0))) 1 5 = 2 := by
  have e1 : toDouble (1 * (3602879701896397 / 18014398509481984)) =
      3602879701896397 / 18014398509481984 := by
    rw [one_mul]
    apply toDouble_of_multiple_pos _ (-3) 7205759403792794 <;> norm_num
  have e2 : toDouble (2 + 3602879701896397 / 18014398509481984) =
      2476979795053773 / 1125899906842624 := by
    rw [toDouble_of_near_pos _ 1 4953959590107546] <;> norm_num
  have e3 : toDouble 2 = 2 := by
    apply toDouble_of_multiple_pos 2 1 (2 ^ 52) <;> norm_num
  refine ⟨rfl, rfl, ?_, ?_⟩
  · have h := (applyZoom_resolved (cameraPage (sampleOffer (some ⟨some 1, some 5, some 0⟩)
      (some 2) false)) 0 ⟨some 1, some 5, some 0⟩ rfl rfl 1).2.1
    rw [h]
    have hz : ((cameraPage (sampleOffer (some ⟨some 1, some 5, some 0⟩) (some 2) false)).track
      0).zoomSetting = some 2 := rfl
    rw [hz, nextZoom_of_ne_zero _ _ _ _ _ (by norm_num)]
    have e0 : effectiveStep (some 0) = 3602879701896397 / 18014398509481984 := by
      rw [effectiveStep, if_pos rfl, toDouble_fifth]
    rw [e0, e1, e2]
    norm_num
  · rw [mul_zero, toDouble_zero, add_zero, e3]
    norm_num [clamp]

/-- Claim C3, at the failing input. With range 0 to 5 and step 0.5 the live
zoom 0 is the minimum, yet a resolved zoom-out applies and stores 0.5: the live
setting 0 is read as missing, then the minimum 0 is read as missing, and the
adjustment starts from 1. -/
theorem applyZoom_boundary_zero :
    (cameraPage (sampleOffer (some ⟨some 0, some 5, some (1 / 2)⟩) (some 0) false)).zoomCap
      = some ⟨some 0, some 5, some (1 / 2)⟩ ∧
    ((cameraPage (sampleOffer (some ⟨some 0, some 5, some (1 / 2)⟩) (some 0) false)).track
      0).zoomSetting = some 0 ∧
    (applyZoom (cameraPage (sampleOffer (some ⟨some 0, some 5, some (1 / 2)⟩) (some 0) false))
      (-1) (.ok ())).1.currentZoom = some (1 / 2) ∧
    ((applyZoom (cameraPage (sampleOffer (some ⟨some 0, some 5, some (1 / 2)⟩) (some 0) false))
      (-1) (.ok ())).1.track 0).applied = [.zoom (some (1 / 2))] := by
  have hn : nextZoom (some 0) ⟨some 0, some 5, some (1 / 2)⟩ (-1) = some (1 / 2) := by
    have e2 : (1 : ℚ) + -(1 / 2) = 1 / 2 := by norm_num
    simp only [nextZoom, orElse, truthy, jsAdd, jsMul, mathMin, mathMax]
    norm_num
    rw [toDouble_neg, toDouble_half, e2, toDouble_half]
    norm_num
  have h := applyZoom_resolved (cameraPage (sampleOffer (some ⟨some 0, some 5, some (1 / 2)⟩)
      (some 0) false)) 0 ⟨some 0, some 5, some (1 / 2)⟩ rfl rfl (-1)
  have hz : ((cameraPage (sampleOffer (some ⟨some 0, some 5, some (1 / 2)⟩) (some 0) false)).track
      0).zoomSetting = some 0 := rfl
  rw [hz, hn] at h
  exact ⟨rfl, rfl, h.2.1, h.2.2⟩

/-- Away from zero the adjustment is idempotent at the boundary. For a
capability whose bounds are doubles with min <= max and whose step is not
negative: a resolved zoom-in at a live zoom equal to a non-zero max applies and
stores max, and a resolved zoom-out at a live zoom equal to a non-zero min
applies and stores min. -/
theorem applyZoom_boundary (s : State) (id : Nat) (lo hi step : ℚ)
    (hv : s.videoTrack = some id)
    (hz : s.zoomCap = some ⟨some lo, some hi, some step⟩)
    (hlo : toDouble lo = lo) (hhi : toDouble hi = hi)
    (hle : lo ≤ hi) (hstep : 0 ≤ step) :
    ((s.track id).zoomSetting = some hi → hi ≠ 0 →
      (applyZoom s 1 (.ok ())).1.currentZoom = some hi ∧
      ((applyZoom s 1 (.ok ())).1.track id).applied = (s.track id).applied ++ [.zoom (some hi)]) ∧
    ((s.track id).zoomSetting = some lo → lo ≠ 0 →
      (applyZoom s (-1) (.ok ())).1.currentZoom = some lo ∧
      ((applyZoom s (-1) (.ok ())).1.track id).applied = (s.track id).applied ++ [.zoom (some lo)]) := by
  constructor
  · intro hlive hne
    obtain ⟨-, h2, h3⟩ := applyZoom_resolved s id _ hv hz 1
    rw [hlive, nextZoom_at_max lo hi step hle hstep hne hhi] at h2 h3
    exact ⟨h2, h3⟩
  · intro hlive hne
    obtain ⟨-, h2, h3⟩ := applyZoom_resolved s id _ hv hz (-1)
    rw [hlive, nextZoom_at_min lo hi step hle hstep hne hlo] at h2 h3
    exact ⟨h2, h3⟩

/-- Zoom-in at 5 and zoom-out at 1 for the range 1 to 5 with step 0.5. -/
theorem applyZoom_boundary_witness :
    (applyZoom (cameraPage (sampleOffer (some ⟨some 1, some 5, some (1/2)⟩) (some 5) false))
      1 (.ok ())).1.currentZoom = some 5 ∧
    (applyZoom (cameraPage (sampleOffer (some ⟨some 1, some 5, some (1/2)⟩) (some 1) false))
      (-1) (.ok ())).1.currentZoom = some 1 := by
  have e5 : toDouble 5 = 5 := by
    apply toDouble_of_multiple_pos 5 2 (5 * 2 ^ 50) <;> norm_num
  exact
    ⟨((applyZoom_boundary (cameraPage (sampleOffer (some ⟨some 1, some 5, some (1/2)⟩) (some 5)
        false)) 0 1 5 (1/2) rfl rfl toDouble_one e5 (by norm_num) (by norm_num)).1 rfl
        (by norm_num)).1,
     ((applyZoom_boundary (cameraPage (sampleOffer (some ⟨some 1, some 5, some (1/2)⟩) (some 1)
        false)) 0 1 5 (1/2) rfl rfl toDouble_one e5 (by norm_num) (by norm_num)).2 rfl
        (by norm_num)).1⟩

/-- Claim C4. On a scan tick with a non-zero video width and a decoded payload
the readout becomes the payload; a payload that is not an HTTP(S) URL triggers
no navigation, and one that is triggers exactly one, to the payload. -/
theorem startQR_tick_navigation (s : State) (videoWidth : Nat) (data : String)
    (hw : videoWidth ≠ 0) :
    (startQR_tick s videoWidth (some data)).qrResult = data ∧
    (¬ httpUrl data → (startQR_tick s videoWidth (some data)).navigations = s.navigations) ∧
    (httpUrl data →
      (startQR_tick s videoWidth (some data)).navigations = s.navigations ++ [data]) := by
  by_cases hu : httpUrl data
  · have ht : urlRx.test data = true := (urlRx_test_iff data).mpr hu
    simp [startQR_tick, hw, ht, hu]
  · have ht : urlRx.test data = false := by
      cases h : urlRx.test data with
      | false => rfl
      | true => exact absurd ((urlRx_test_iff data).mp h) hu
    simp [startQR_tick, hw, ht, hu]

/-- An upper-case HTTPS payload navigates once; a Wi-Fi payload only shows. -/
theorem startQR_tick_navigation_witness :
    (startQR_tick freshPage 640 (some "HTTPS://example.org/a")).navigations
        = ["HTTPS://example.org/a"] ∧
    (startQR_tick freshPage 640 (some "WIFI:S:home;;")).navigations = [] ∧
    (startQR_tick freshPage 640 (some "WIFI:S:home;;")).qrResult = "WIFI:S:home;;" :=
  ⟨(startQR_tick_navigation freshPage 640 "HTTPS://example.org/a" (by decide)).2.2
      (Or.inr ⟨"example.org/a".toList, rfl⟩),
   (startQR_tick_navigation freshPage 640 "WIFI:S:home;;" (by decide)).2.1
      (by unfold httpUrl beginsIgnoringCase; decide),
   (startQR_tick_navigation freshPage 640 "WIFI:S:home;;" (by decide)).1⟩

/-- Claim C5. After onPose the detected-name readout is the names of the
qualifying keypoints among landmark 2 ("Left Eye") and landmark 5 ("Right
Eye"), in that order and joined by a comma and a blank, or "None" when neither
qualifies; left-eye visibility 0.9 with right-eye visibility 0.3 reads
"Left Eye". -/
theorem onPose_readout (s : State) (r : PoseResults) :
    (onPose s r).detectedName = readout r ∧
    (qualifies r 2 = true → qualifies r 5 = true →
      (onPose s r).detectedName = "Left Eye, Right Eye") ∧
    (qualifies r 2 = true → qualifies r 5 = false → (onPose s r).detectedName = "Left Eye") ∧
    (qualifies r 2 = false → qualifies r 5 = true → (onPose s r).detectedName = "Right Eye") ∧
    (qualifies r 2 = false → qualifies r 5 = false → (onPose s r).detectedName = "None") ∧
    (∀ lm p q, r.poseLandmarks = some lm → lm[2]? = some p → lm[5]? = some q →
      p.visibility = some (9 / 10) → q.visibility = some (3 / 10) →
      (onPose s r).detectedName = "Left Eye") := by
  have key := onPose_detectedName s r
  refine ⟨key, ?_, ?_, ?_, ?_, ?_⟩
  · intro h2 h5
    rw [key]; simp [readout, qualifyingNames, h2, h5]; rfl
  · intro h2 h5
    rw [key]; simp [readout, qualifyingNames, h2, h5]; rfl
  · intro h2 h5
    rw [key]; simp [readout, qualifyingNames, h2, h5]; rfl
  · intro h2 h5
    rw [key]; simp [readout, qualifyingNames, h2, h5]
  · intro lm p q hl hp hq hvp hvq
    have h2 : qualifies r 2 = true := by
      simp [qualifies, hl, hp, hvp]; norm_num
    have h5 : qualifies r 5 = false := by
      simp [qualifies, hl, hq, hvq]; norm_num
    rw [key]; simp [readout, qualifyingNames, h2, h5]; rfl

/-- Six landmarks with left-eye visibility 0.9 and right-eye visibility 0.3. -/
theorem onPose_readout_witness :
    (onPose freshPage ⟨some [⟨0, 0, some 1⟩, ⟨0, 0, some 1⟩, ⟨1 / 2, 1 / 2, some (9 / 10)⟩,
      ⟨0, 0, some 1⟩, ⟨0, 0, some 1⟩, ⟨1 / 4, 1 / 2, some (3 / 10)⟩]⟩).detectedName = "Left Eye" :=
  (onPose_readout freshPage ⟨some [⟨0, 0, some 1⟩, ⟨0, 0, some 1⟩, ⟨1 / 2, 1 / 2, some (9 / 10)⟩,
      ⟨0, 0, some 1⟩, ⟨0, 0, some 1⟩, ⟨1 / 4, 1 / 2, some (3 / 10)⟩]⟩).2.2.2.2.2
    _ _ _ rfl rfl rfl rfl rfl

/-- Claim C6. From a page that has not acquired a stream yet, after any N >= 1
granted startCamera calls in sequence N streams have been acquired, exactly one
of them (the last) is open, the other N-1 are fully stopped, and the requests
made of the platform are, call by call: stop the stream current before the call
(if any), then request and receive the next; so the stop of stream i stands
right before the request answered with stream i + 1. -/
theorem startCameras_one_open (s : State) (calls : List (Option String × StreamOffer))
    (hs : s.currentStream = none) (hc : s.streamCount = 0) (hne : calls ≠ []) :
    (startCameras s calls).streamCount = calls.length ∧
    openStreams (startCameras s calls) = 1 ∧
    stoppedStreams (startCameras s calls) = calls.length - 1 ∧
    (startCameras s calls).currentStream = some (calls.length - 1) ∧
    ((startCameras s calls).streams (calls.length - 1)).isOpen = true ∧
    (∀ i, i < calls.length - 1 → ((startCameras s calls).streams i).isStopped = true) ∧
    (startCameras s calls).log = s.log ++ sessionLog none 0 (calls.map Prod.fst) ∧
    (∀ i, i + 1 < calls.length → ∃ pre post r, (startCameras s calls).log =
      pre ++ [Event.stopped i, Event.requested r, Event.granted (i + 1)] ++ post) := by
  have hrel : Released s := by
    intro i hi
    rw [hc] at hi
    omega
  obtain ⟨k1, k2, k3, k4, k5, k6⟩ := startCameras_granted calls s hrel hne
  rw [hc, Nat.zero_add] at k1 k2 k3 k4 k5
  rw [hc, hs] at k6
  have hpos : 0 < calls.length := List.length_pos.mpr hne
  refine ⟨k1, ?_, ?_, k2, k3, k5, k6, ?_⟩
  rotate_left 2
  · intro i hi
    obtain ⟨pre, post, r, e⟩ :=
      sessionLog_stop_before (calls.map Prod.fst) none 0 i (by simpa using hi)
    refine ⟨s.log ++ pre, post, r, ?_⟩
    rw [k6, e]
    simp
  · unfold openStreams
    rw [k1]
    apply countP_range_single _ _ (calls.length - 1) (by omega) k3
    intro i hi hne
    exact not_isOpen_of_isStopped _ (k5 i (by omega))
  · unfold stoppedStreams
    rw [k1]
    have : calls.length = (calls.length - 1) + 1 := by omega
    rw [this]
    simpa using countP_range_all_but_last _ (calls.length - 1) k5 k4

/-- Three granted calls from a fresh page. -/
theorem startCameras_one_open_witness :
    openStreams (startCameras freshPage
      [(none, sampleOffer none none false), (some "cam-b", sampleOffer none none true),
       (some "cam-a", sampleOffer none none false)]) = 1 ∧
    stoppedStreams (startCameras freshPage
      [(none, sampleOffer none none false), (some "cam-b", sampleOffer none none true),
       (some "cam-a", sampleOffer none none false)]) = 3 - 1 ∧
    (startCameras freshPage
      [(none, sampleOffer none none false), (some "cam-b", sampleOffer none none true),
       (some "cam-a", sampleOffer none none false)]).log =
      [.requested .facingEnvironment, .granted 0,
       .stopped 0, .requested (.exactDevice "cam-b"), .granted 1,
       .stopped 1, .requested (.exactDevice "cam-a"), .granted 2] := by
  have h := startCameras_one_open freshPage
    [(none, sampleOffer none none false), (some "cam-b", sampleOffer none none true),
     (some "cam-a", sampleOffer none none false)] rfl rfl (by simp)
  refine ⟨h.2.1, h.2.2.1, ?_⟩
  rw [h.2.2.2.2.2.2.1]
  decide

/-- Claim C7, amended. When the acquisition inside startCamera is denied,
startCamera shows "Camera error: " followed by the platform message, returns
false, has asked the platform exactly once, and keeps the variables
`currentStream`, `videoTrack`, `zoomCap`, `torchSupported` and the torch flag;
no stream is added; the tracks of the stream that was current, if any, have all
been stopped before the request, and every other stream is untouched. -/
theorem startCamera_denied (s : State) (deviceId : Option String) (msg : String) :
    (startCamera s deviceId (.denied msg)).2 = .ok false ∧
    (startCamera s deviceId (.denied msg)).1.errorMsg = "Camera error: " ++ msg ∧
    (startCamera s deviceId (.denied msg)).1.currentStream = s.currentStream ∧
    (startCamera s deviceId (.denied msg)).1.videoTrack = s.videoTrack ∧
    (startCamera s deviceId (.denied msg)).1.zoomCap = s.zoomCap ∧
    (startCamera s deviceId (.denied msg)).1.torchSupported = s.torchSupported ∧
    (startCamera s deviceId (.denied msg)).1.flashBtnOn = s.flashBtnOn ∧
    (startCamera s deviceId (.denied msg)).1.streamCount = s.streamCount ∧
    ((startCamera s deviceId (.denied msg)).1.log.filter
        (fun e => match e with | .requested _ => true | _ => false)).length =
      (s.log.filter (fun e => match e with | .requested _ => true | _ => false)).length + 1 ∧
    (∀ id, s.currentStream = some id →
      (startCamera s deviceId (.denied msg)).1.streams id = (s.streams id).stopAll ∧
      (startCamera s deviceId (.denied msg)).1.log =
        s.log ++ [.stopped id, .requested (videoRequest deviceId), .denied msg]) ∧
    (∀ j, s.currentStream ≠ some j →
      (startCamera s deviceId (.denied msg)).1.streams j = s.streams j) ∧
    (s.currentStream = none →
      (startCamera s deviceId (.denied msg)).1.log =
        s.log ++ [.requested (videoRequest deviceId), .denied msg]) := by
  cases h : s.currentStream with
  | none => simp [startCamera, showError, h]
  | some id =>
    simp [startCamera, showError, h]
    intro j hj
    exact Function.update_noteq (Ne.symm hj) _ _

/-- After a granted call the stream is open; a denied call that follows leaves
the same stream current with its tracks stopped. -/
theorem startCamera_denied_stops_tracks :
    (cameraPage (sampleOffer none none false)).currentStream = some 0 ∧
    ((cameraPage (sampleOffer none none false)).streams 0).isOpen = true ∧
    (startCamera (cameraPage (sampleOffer none none false)) none
        (.denied "NotReadableError")).1.currentStream = some 0 ∧
    ((startCamera (cameraPage (sampleOffer none none false)) none
        (.denied "NotReadableError")).1.streams 0).isOpen = false := by
  simp [cameraPage, sampleOffer, startCamera, freshPage, showError, StreamOffer.create,
    MediaStream.isOpen, MediaStream.getTracks, MediaStream.stopAll, Track.stop]

/-- Claim C8, amended. From a state in which no recorder is recording, the
first record action dispatches to startRecording and leaves exactly one active
recording; the second dispatches to stopRecording and leaves none, having
constructed one recorder in all; every invocation dispatches to exactly one of
the two according to whether the current recorder is recording. -/
theorem recordBtn_onclick_exclusive (s : State) (hidle : ∀ i, s.recorders i ≠ .recording) :
    recordBtn_onclick s = startRecording s ∧
    activeRecordings (recordBtn_onclick s) = 1 ∧
    recordBtn_onclick (recordBtn_onclick s) = stopRecording (recordBtn_onclick s) ∧
    activeRecordings (recordBtn_onclick (recordBtn_onclick s)) = 0 ∧
    (recordBtn_onclick (recordBtn_onclick s)).recorderCount = s.recorderCount + 1 ∧
    (∀ t : State, recordBtn_onclick t = if t.isRecording then stopRecording t else startRecording t) := by
  have h0 : s.isRecording = false := by
    unfold State.isRecording
    cases s.mediaRecorder with
    | none => rfl
    | some id => simp [hidle id]
  have h1 : recordBtn_onclick s = startRecording s := by
    simp [recordBtn_onclick, h0]
  have h2 : (startRecording s).isRecording = true := by
    simp [startRecording, State.isRecording]
  have h3 : recordBtn_onclick (startRecording s) = stopRecording (startRecording s) := by
    simp [recordBtn_onclick, h2]
  refine ⟨h1, ?_, ?_, ?_, ?_, fun t => rfl⟩
  · rw [h1]
    unfold activeRecordings
    apply countP_range_single _ _ s.recorderCount
    · simp [startRecording]
    · simp [startRecording]
    · intro i _ hi
      simp [startRecording, Function.update_noteq hi, hidle i]
  · rw [h1, h3]
  · rw [h1, h3]
    unfold activeRecordings
    apply countP_range_none
    intro i
    by_cases hi : i = s.recorderCount
    · subst hi
      simp [stopRecording, startRecording]
    · simp [stopRecording, startRecording, Function.update_noteq hi, hidle i]
  · rw [h1, h3]
    simp [stopRecording, startRecording]

/-- The two record actions on a fresh page. -/
theorem recordBtn_onclick_exclusive_witness :
    activeRecordings (recordBtn_onclick freshPage) = 1 ∧
    activeRecordings (recordBtn_onclick (recordBtn_onclick freshPage)) = 0 :=
  ⟨(recordBtn_onclick_exclusive freshPage (by intro i; simp [freshPage])).2.1,
   (recordBtn_onclick_exclusive freshPage (by intro i; simp [freshPage])).2.2.2.1⟩

/-- Two record actions in a row on a fresh page leave no active recording. -/
theorem recordBtn_onclick_twice_idle :
    activeRecordings (recordBtn_onclick (recordBtn_onclick freshPage)) ≠ 1 := by
  decide

/-- Claim C9, at the failing input. On a fresh page a denied device listing is
the completion of enumerateDevices itself, and the initialisation of the page
ends with it: nothing is shown, no stream is requested, no camera is opened.
The same denial inside startCamera is caught and shown, and an empty listing
lets the initialisation go on to open a camera. -/
theorem enumerateDevices_rejection_aborts :
    (enumerateDevices freshPage (.error "NotAllowedError")).2 = .error "NotAllowedError" ∧
    (enumerateDevices freshPage (.error "NotAllowedError")).1.devices = [] ∧
    (pageInit freshPage (.error "NotAllowedError") (.granted bareOffer)).2
      = .error "NotAllowedError" ∧
    (pageInit freshPage (.error "NotAllowedError") (.granted bareOffer)).1.errorMsg = "" ∧
    (pageInit freshPage (.error "NotAllowedError") (.granted bareOffer)).1.log = [] ∧
    (pageInit freshPage (.error "NotAllowedError") (.granted bareOffer)).1.currentStream = none ∧
    (startCamera freshPage none (.denied "NotAllowedError")).2 = .ok false ∧
    (startCamera freshPage none (.denied "NotAllowedError")).1.errorMsg
      = "Camera error: NotAllowedError" ∧
    (pageInit freshPage (.ok []) (.granted bareOffer)).2 = .ok () ∧
    (pageInit freshPage (.ok []) (.granted bareOffer)).1.currentStream = some 0 :=
  ⟨rfl, rfl, rfl, rfl, rfl, rfl, rfl, rfl, rfl, rfl⟩

/-- Claim C10, at the failing input. After a granted startCamera on a stream
whose video track does not implement `getCapabilities`, the session has an
active video track and startCamera has read its capabilities as lacking torch;
toggleTorch then throws on its unguarded call of the method: it shows no
"Torch not supported" and changes nothing. -/
theorem toggleTorch_throws_without_getCapabilities :
    (cameraPage bareOffer).videoTrack = some 0 ∧
    ((cameraPage bareOffer).track 0).live = true ∧
    ((cameraPage bareOffer).track 0).getCapabilities = none ∧
    (cameraPage bareOffer).torchSupported = false ∧
    (toggleTorch (cameraPage bareOffer) (.ok ())).2
      = .error "videoTrack.getCapabilities is not a function" ∧
    (toggleTorch (cameraPage bareOffer) (.ok ())).1.errorMsg = "" ∧
    (toggleTorch (cameraPage bareOffer) (.ok ())).1.console = [] ∧
    (toggleTorch (cameraPage bareOffer) (.ok ())).1.flashBtnOn = (cameraPage bareOffer).flashBtnOn :=
  ⟨rfl, rfl, rfl, rfl, rfl, rfl, rfl, rfl⟩

/-- Where the video track implements `getCapabilities`, toggleTorch does what
is asked of it: when the capabilities lack torch it shows "Torch not
supported", applies no constraint and keeps the torch flag; otherwise a
resolved toggleTorch applies the negation of the flag as a torch constraint on
the track and flips the flag, and a second resolved toggleTorch restores it. -/
theorem toggleTorch_contract (s : State) (id : Nat) (caps : Capabilities)
    (hv : s.videoTrack = some id) (hc : (s.track id).getCapabilities = some caps) :
    (caps.torch = false → ∀ outcome,
      toggleTorch s outcome = (showError s "Torch not supported", .ok ()) ∧
      (toggleTorch s outcome).1.errorMsg = "Torch not supported" ∧
      (toggleTorch s outcome).1.streams = s.streams ∧
      (toggleTorch s outcome).1.torchOn = s.torchOn) ∧
    (caps.torch = true →
      (toggleTorch s (.ok ())).2 = .ok () ∧
      ((toggleTorch s (.ok ())).1.track id).applied =
        (s.track id).applied ++ [.torch (!s.torchOn)] ∧
      (toggleTorch s (.ok ())).1.torchOn = !s.torchOn ∧
      (toggleTorch (toggleTorch s (.ok ())).1 (.ok ())).2 = .ok () ∧
      (toggleTorch (toggleTorch s (.ok ())).1 (.ok ())).1.torchOn = s.torchOn) := by
  constructor
  · intro ht outcome
    simp [toggleTorch, hv, hc, ht, showError, State.torchOn]
  · intro ht
    obtain ⟨r1, v1, c1, a1, o1⟩ := toggleTorch_resolved s id caps hv hc ht
    obtain ⟨r2, -, -, -, o2⟩ := toggleTorch_resolved _ id caps v1 c1 ht
    refine ⟨r1, a1, o1, r2, ?_⟩
    rw [o2, o1, Bool.not_not]

/-- A track without torch, and two toggles on a track with torch. -/
theorem toggleTorch_contract_witness :
    (toggleTorch (cameraPage (sampleOffer none none false)) (.ok ())).1.errorMsg
      = "Torch not supported" ∧
    (toggleTorch (toggleTorch (cameraPage (sampleOffer none none true)) (.ok ())).1
      (.ok ())).1.torchOn = (cameraPage (sampleOffer none none true)).torchOn :=
  ⟨((toggleTorch_contract (cameraPage (sampleOffer none none false)) 0 ⟨none, false⟩
      rfl
      rfl).1
      rfl (.ok ())).2.1,
   ((toggleTorch_contract (cameraPage (sampleOffer none none true)) 0 ⟨none, true⟩
      rfl
      rfl).2
      rfl).2.2.2.2⟩

end QRCode
